import Mathlib

/-!
Verification of the CPC (Time-Rights Chain) core against its specification.

The development shallowly embeds the Python sources (`utxo.py`,
`transaction.py`, `cpc_miner.py`) into Lean:

* amounts (Python floats) are modelled as rationals;
* timestamps (Python floats from `time.time()`) are modelled as integers,
  and every function that reads the wall clock takes the clock value as an
  explicit parameter;
* Python dictionaries keyed by strings are modelled as association lists
  with Python-dict semantics (update in place, insert appends);
* copyright payload dictionaries are modelled as records carrying all the
  keys that `CopyrightPayload.to_dict` produces; an absent payload (the
  empty dict, which is falsy in Python) is `Option.none`;
* SHA-256 hashing of canonically serialized JSON is modelled by an abstract
  hash function over the exact record of fields that the source serializes
  (the preimage), passed as a parameter;
* ECDSA signature verification is modelled by an oracle
  `verify : address → signature → txid → Bool` passed as a parameter.
-/

namespace CPC

/-! ## String utilities

Python `str.split(sep)` / `sep.join(parts)` for one-character separators,
and decimal printing/parsing of integers (`str(i)` / `int(s)`), modelled on
lists of characters. -/

/-- Model of Python `s.split(sep)` for a single-character separator,
acting on the character list: `"" ↦ [""]`, `"a|b" ↦ ["a","b"]`, etc.
The recursive result is always nonempty, so taking its head and tail is
exact. -/
def splitSepChars (sep : Char) : List Char → List (List Char)
  | [] => [[]]
  | c :: rest =>
    let r := splitSepChars sep rest
    if c = sep then [] :: r else (c :: r.headD []) :: r.tail

/-- Model of Python `sep.join(parts)` for a single-character separator. -/
def joinSepChars (sep : Char) : List (List Char) → List Char
  | [] => []
  | [x] => x
  | x :: y :: xs => x ++ sep :: joinSepChars sep (y :: xs)

def splitSep (sep : Char) (s : String) : List String :=
  (splitSepChars sep s.data).map String.mk

def joinSep (sep : Char) (l : List String) : String :=
  String.mk (joinSepChars sep (l.map String.data))

/-- Model of Python `s.startswith(p)`. -/
def strStartsWith (s p : String) : Bool :=
  p.data.isPrefixOf s.data

/-! ### Decimal printing and parsing -/

/-- The character for a decimal digit. -/
def digitChar (d : Nat) : Char := Char.ofNat (48 + d)

/-- Model of Python `str(n)` for a natural number: decimal digits. -/
def natChars (n : Nat) : List Char :=
  if n = 0 then ['0'] else ((Nat.digits 10 n).map digitChar).reverse

/-- Model of Python `str(i)` for an integer. -/
def intChars (i : Int) : List Char :=
  if i < 0 then '-' :: natChars i.natAbs else natChars i.toNat

def natStr (n : Nat) : String := String.mk (natChars n)

def intStr (i : Int) : String := String.mk (intChars i)

def charDigit? (c : Char) : Option Nat :=
  if 48 ≤ c.toNat ∧ c.toNat ≤ 57 then some (c.toNat - 48) else none

/-- Parse a nonempty all-digit character list as a natural number
(the restriction of Python `int(s)` to canonical decimal numerals). -/
def parseNatChars? (cs : List Char) : Option Nat :=
  if cs ≠ [] ∧ cs.all (fun c => (charDigit? c).isSome)
  then some (cs.foldl (fun a c => 10 * a + ((charDigit? c).getD 0)) 0)
  else none

/-- Model of Python `int(s)` restricted to canonical decimal numerals with
an optional leading minus sign; `none` where Python raises `ValueError`. -/
def parseInt? (s : String) : Option Int :=
  match s.data with
  | [] => none
  | c :: rest =>
    if c = '-' then (parseNatChars? rest).map (fun n => -(n : Int))
    else (parseNatChars? (c :: rest)).map (fun n => (n : Int))

/-! ## Data model

Records mirroring the Python classes.  `Amount` models the Python floats
used for coin values; `Int` models timestamps.  An `Option String` models a
Python string attribute that may be `None`; Python truthiness (where both
`None` and `""` are falsy) is `optStrTruthy`. -/

abbrev Amount := ℚ

/-- Textbook rational addition through the normalizing constructor
`mkRat`; used for all amount sums so that concrete runs evaluate inside
the kernel (the library addition on `ℚ` is irreducible). -/
def ratAdd (a b : Amount) : Amount :=
  mkRat (a.num * b.den + b.num * a.den) (a.den * b.den)

/-- Rational subtraction through `mkRat`, for the miner's fee
computation. -/
def ratSub (a b : Amount) : Amount :=
  mkRat (a.num * b.den - b.num * a.den) (a.den * b.den)

/-- The sum of a list of amounts (Python `sum(...)`). -/
def amountSum : List Amount → Amount
  | [] => 0
  | a :: rest => ratAdd a (amountSum rest)

/-- Python truthiness of an optional string: `None` and `""` are falsy. -/
def optStrTruthy : Option String → Bool
  | none => false
  | some s => s ≠ ""

/-- Mirror of `CopyrightPayload` (utxo.py): the record carries exactly the
keys produced by `CopyrightPayload.to_dict`.  An absent / empty payload
dict is represented as `Option.none` at the use sites. -/
structure CopyrightPayload where
  work_hash : String
  work_title : String
  author : String
  copyright_type : String
  rights_scope : List String
  parent_utxo : Option String
  created_at : Int
deriving DecidableEq

/-- Mirror of `AUTHORIZATION_DURATION_SECONDS = 90 * 24 * 3600` (utxo.py). -/
def authorizationDurationSeconds : Int := 90 * 24 * 3600

/-- Mirror of `CopyrightPayload.get_end_time`. -/
def CopyrightPayload.getEndTime (p : CopyrightPayload) : Int :=
  p.created_at + authorizationDurationSeconds

/-- Mirror of `CopyrightPayload.is_expired(current_time)`. -/
def CopyrightPayload.isExpired (p : CopyrightPayload) (current_time : Int) : Bool :=
  current_time ≥ p.getEndTime

/-- Mirror of `UTXO` (utxo.py).  The unused `created_time` attribute is
omitted: no consensus code reads it. -/
structure UTXO where
  txid : String
  vout : Nat
  amount : Amount
  address : String
  script_pubkey : String
  utxo_type : String
  payload : Option CopyrightPayload
deriving DecidableEq

/-- Mirror of `TransactionInput` (transaction.py).  `signatures` is the
multi-signature table, an insertion-ordered dict `address → signature`. -/
structure TransactionInput where
  txid : String
  vout : Nat
  signature : Option String
  public_key : Option String
  signatures : List (String × String)
  required_signers : List String
deriving DecidableEq

/-- Mirror of `TransactionInput.__init__`: derives `required_signers` from
`public_key` when not given (Python truthiness: `""` and `None` are falsy)
and seeds the signature table from the single-signature pair. -/
def mkInput (txid : String) (vout : Nat) (signature public_key : Option String)
    (required_signers : Option (List String)) : TransactionInput :=
  let rs := match required_signers with
    | none => if optStrTruthy public_key then [public_key.getD ""] else []
    | some l => l
  let sigs := if optStrTruthy signature ∧ optStrTruthy public_key
    then [(public_key.getD "", signature.getD "")] else []
  ⟨txid, vout, signature, public_key, sigs, rs⟩

/-- Mirror of `TransactionOutput` (transaction.py). -/
structure TransactionOutput where
  amount : Amount
  address : String
  script_pubkey : String
  utxo_type : String
  payload : Option CopyrightPayload
deriving DecidableEq

/-- Mirror of `Transaction` (transaction.py).  `txid` is the stored
fingerprint field; `calcTxid` below recomputes it from the other fields. -/
structure Transaction where
  inputs : List TransactionInput
  outputs : List TransactionOutput
  tx_type : String
  metadata : List (String × String)
  timestamp : Int
  txid : String
deriving DecidableEq

/-- The exact record of fields serialized by `Transaction.calculate_txid`
(canonical JSON of inputs, outputs, tx_type, timestamp, metadata — the
inputs including their `signatures` and `required_signers` tables). -/
structure TxPreimage where
  inputs : List TransactionInput
  outputs : List TransactionOutput
  tx_type : String
  timestamp : Int
  metadata : List (String × String)
deriving DecidableEq

/-- The preimage that `Transaction.calculate_txid` hashes. -/
def txPreimage (tx : Transaction) : TxPreimage :=
  ⟨tx.inputs, tx.outputs, tx.tx_type, tx.timestamp, tx.metadata⟩

/-- Mirror of `Transaction.calculate_txid`: SHA-256 of the canonical JSON
serialization, modelled as an abstract hash function on the preimage. -/
def calcTxid (hashT : TxPreimage → String) (tx : Transaction) : String :=
  hashT (txPreimage tx)

/-- Mirror of `Transaction.__init__` at an explicit creation time. -/
def mkTransaction (hashT : TxPreimage → String)
    (inputs : List TransactionInput) (outputs : List TransactionOutput)
    (tx_type : String) (metadata : List (String × String))
    (timestamp : Int) : Transaction :=
  let tx : Transaction := ⟨inputs, outputs, tx_type, metadata, timestamp, ""⟩
  { tx with txid := calcTxid hashT tx }

/-- Mirror of `TransactionInput.is_fully_signed`. -/
def inputFullySigned (inp : TransactionInput) : Bool :=
  inp.required_signers.all (fun s => inp.signatures.any (fun p => p.1 = s))

/-- Mirror of `TransactionInput.get_unsigned_signers`. -/
def inputUnsignedSigners (inp : TransactionInput) : List String :=
  inp.required_signers.filter (fun s => ¬ inp.signatures.any (fun p => p.1 = s))

/-- Mirror of `Transaction.is_fully_signed` (inputs with an empty
`required_signers` list are skipped by the generator filter). -/
def txIsFullySigned (tx : Transaction) : Bool :=
  tx.inputs.all (fun inp =>
    if inp.required_signers ≠ [] then inputFullySigned inp else true)

/-- Mirror of `Transaction.get_unsigned_signers`. -/
def txUnsignedSigners (tx : Transaction) : List (Nat × List String) :=
  (tx.inputs.enum.filterMap (fun p =>
    if p.2.required_signers ≠ [] then
      (if inputUnsignedSigners p.2 ≠ []
        then some (p.1, inputUnsignedSigners p.2) else none)
    else none))

/-- Python dict insertion into the signature table: update in place when
the key exists, append otherwise (mirror of `signatures[address] = sig`). -/
def sigInsert (sigs : List (String × String)) (k v : String) :
    List (String × String) :=
  if sigs.any (fun p => p.1 = k) then
    sigs.map (fun p => if p.1 = k then (k, v) else p)
  else sigs ++ [(k, v)]

/-- Mirror of `TransactionInput.add_signature`. -/
def inputAddSignature (inp : TransactionInput) (addr sig : String) :
    TransactionInput :=
  { inp with signatures := sigInsert inp.signatures addr sig }

/-- Replace the element at an index, keeping the list otherwise unchanged. -/
def listModify {α : Type} : Nat → (α → α) → List α → List α
  | _, _, [] => []
  | 0, f, x :: xs => f x :: xs
  | n + 1, f, x :: xs => x :: listModify n f xs

/-- Mirror of `Transaction.add_signature(input_index, signer_address,
signature)`: mutates the indexed input's signature table and then
recomputes the txid (`self.txid = self.calculate_txid()`). -/
def Transaction.addSignature (hashT : TxPreimage → String) (tx : Transaction)
    (input_index : Nat) (signer_address signature : String) : Transaction :=
  if input_index < tx.inputs.length then
    let tx2 := { tx with
      inputs := listModify input_index
        (fun inp => inputAddSignature inp signer_address signature) tx.inputs }
    { tx2 with txid := calcTxid hashT tx2 }
  else tx

/-- Mirror of `CPCBlock` (cpc_miner.py).  `hash` is the stored block
fingerprint. -/
structure Block where
  index : Nat
  timestamp : Int
  transactions : List Transaction
  previous_hash : String
  nonce : Nat
  hash : String
deriving DecidableEq

/-- The exact record of fields serialized by `CPCBlock.calculate_hash`. -/
structure BlockPreimage where
  index : Nat
  timestamp : Int
  transactions : List Transaction
  previous_hash : String
  nonce : Nat
deriving DecidableEq

/-- Mirror of `CPCBlock.__init__`: stores the fields and computes the hash
(abstract hash function over the serialized preimage). -/
def mkBlock (hashB : BlockPreimage → String) (index : Nat) (timestamp : Int)
    (transactions : List Transaction) (previous_hash : String)
    (nonce : Nat) : Block :=
  ⟨index, timestamp, transactions, previous_hash, nonce,
    hashB ⟨index, timestamp, transactions, previous_hash, nonce⟩⟩

/-! ## Lock scripts (`TimeLockScript`, utxo.py) -/

/-- Mirror of `TimeLockScript`. -/
structure TimeLockScript where
  script_type : String
  addresses : List String
  required_sig_num : Int
  time_lock : Option Int
deriving DecidableEq

/-- Python truthiness of an optional integer: `None` and `0` are falsy. -/
def optIntTruthy : Option Int → Bool
  | none => false
  | some i => i ≠ 0

/-- Mirror of `TimeLockScript.can_spend(current_time, signers, end_time)`.
The Python caller passes `[address]` where `address` may be `None`, so the
signers are optional strings; a `None` entry never matches an address. -/
def canSpend (s : TimeLockScript) (current_time : Int)
    (signers : List (Option String)) (end_time : Option Int) : Bool :=
  if optIntTruthy end_time ∧ current_time ≥ end_time.getD 0 then false
  else if optIntTruthy s.time_lock ∧ current_time < s.time_lock.getD 0 then false
  else
    ((signers.filter (fun os => match os with
        | some a => s.addresses.contains a
        | none => false)).length : Int) ≥ s.required_sig_num

/-- Mirror of `TimeLockScript.to_string`: script type, then an optional
`CHECKLOCKTIMEVERIFY:<ts>` part (skipped when `time_lock` is falsy), then
an optional `MULTISIG:<required>:<total>` part (only when
`required_sig_num > 1`), then the addresses, joined with `|`. -/
def TimeLockScript.toScriptString (s : TimeLockScript) : String :=
  let parts := [s.script_type]
    ++ (if optIntTruthy s.time_lock
        then ["CHECKLOCKTIMEVERIFY:" ++ intStr (s.time_lock.getD 0)] else [])
    ++ (if s.required_sig_num > 1
        then ["MULTISIG:" ++ intStr s.required_sig_num ++ ":"
              ++ intStr (s.addresses.length : Int)] else [])
    ++ s.addresses
  joinSep '|' parts

/-- One step of the parsing loop of `TimeLockScript.from_string` over the
accumulated `(time_lock, required_sig_num, addresses)` state; `none`
models a raised `ValueError` / `IndexError` (bad `int(...)` or a
`MULTISIG` part that does not split into exactly three fields). -/
def fromStringStep (acc : Option Int × Int × List String) (part : String) :
    Option (Option Int × Int × List String) :=
  if strStartsWith part "CHECKLOCKTIMEVERIFY:" then
    match (splitSep ':' part).get? 1 with
    | none => none
    | some seg => (parseInt? seg).map (fun v => (some v, acc.2.1, acc.2.2))
  else if strStartsWith part "MULTISIG:" then
    match splitSep ':' part with
    | [_, req, _total] => (parseInt? req).map (fun r => (acc.1, r, acc.2.2))
    | _ => none
  else some (acc.1, acc.2.1, acc.2.2 ++ [part])

/-- Mirror of `TimeLockScript.from_string`: split on `|`, take the head as
the script type, and fold the remaining parts; `none` models a raised
exception. -/
def TimeLockScript.fromScriptString (str : String) : Option TimeLockScript :=
  match splitSep '|' str with
  | [] => none
  | h :: t =>
    (t.foldlM fromStringStep ((none : Option Int), (1 : Int), ([] : List String))).map
      (fun acc => ⟨h, acc.2.2, acc.2.1, acc.1⟩)

/-! ## The UTXO state engine (`BlockchainUTXOManager`, utxo.py)

The UTXO set is a Python dict keyed by the string `f"{txid}:{vout}"`,
modelled as an association list with dict semantics. -/

abbrev UtxoMap := List (String × UTXO)

def mapContains (m : UtxoMap) (k : String) : Bool :=
  m.any (fun p => p.1 = k)

def mapGet? (m : UtxoMap) (k : String) : Option UTXO :=
  (m.find? (fun p => p.1 = k)).map (fun p => p.2)

/-- Python dict assignment `m[k] = v`: replace in place or append. -/
def mapInsert (m : UtxoMap) (k : String) (v : UTXO) : UtxoMap :=
  if mapContains m k then m.map (fun p => if p.1 = k then (k, v) else p)
  else m ++ [(k, v)]

/-- Python `del m[k]` (the scan only calls it under a membership guard). -/
def mapErase (m : UtxoMap) (k : String) : UtxoMap :=
  m.filter (fun p => p.1 ≠ k)

/-- The dict key `f"{txid}:{vout}"` used throughout `utxo.py`. -/
def utxoKey (txid : String) (vout : Nat) : String :=
  String.mk (txid.data ++ ':' :: natChars vout)

/-- Mirror of the input-consumption step of `scan_blockchain`:
`if identifier in utxos: del utxos[identifier]`. -/
def spendInput (m : UtxoMap) (inp : TransactionInput) : UtxoMap :=
  let k := utxoKey inp.txid inp.vout
  if mapContains m k then mapErase m k else m

/-- The UTXO record built for output `vout` of transaction `txid` by
`scan_blockchain`. -/
def outputToUtxo (txid : String) (vout : Nat) (o : TransactionOutput) : UTXO :=
  ⟨txid, vout, o.amount, o.address, o.script_pubkey, o.utxo_type, o.payload⟩

/-- Mirror of the output-creation loop of `scan_blockchain`
(`for vout, output in enumerate(tx.outputs)`). -/
def processOutputs (m : UtxoMap) (txid : String) (vout : Nat) :
    List TransactionOutput → UtxoMap
  | [] => m
  | o :: rest =>
    processOutputs (mapInsert m (utxoKey txid vout) (outputToUtxo txid vout o))
      txid (vout + 1) rest

/-- Mirror of the per-transaction body of `scan_blockchain`: consume all
inputs, then insert all outputs. -/
def applyTransaction (m : UtxoMap) (tx : Transaction) : UtxoMap :=
  processOutputs (tx.inputs.foldl spendInput m) tx.txid 0 tx.outputs

/-- Mirror of `BlockchainUTXOManager.scan_blockchain(start_time)`: walk the
chain in order, skipping a block when `start_time` is truthy and the block
is older (`if start_time and block.timestamp < start_time: continue`). -/
def scanBlockchain (chain : List Block) (start_time : Option Int) : UtxoMap :=
  chain.foldl (fun m b =>
    if optIntTruthy start_time ∧ b.timestamp < start_time.getD 0 then m
    else b.transactions.foldl applyTransaction m) []

/-- Mirror of `BlockchainUTXOManager.get_utxo(txid, vout, scan_months=3)`
at clock value `now` (`start_time = int(time.time()) - 3*30*24*3600`). -/
def getUtxo (chain : List Block) (now : Int) (txid : String) (vout : Nat) :
    Option UTXO :=
  mapGet? (scanBlockchain chain (some (now - 3 * 30 * 24 * 3600)))
    (utxoKey txid vout)

/-- Mirror of `BlockchainUTXOManager.get_utxos_by_address(address)` with
the default 3-month window. -/
def getUtxosByAddress (chain : List Block) (now : Int) (address : String) :
    List UTXO :=
  ((scanBlockchain chain (some (now - 3 * 30 * 24 * 3600))).map
    (fun p => p.2)).filter (fun u => u.address = address)

/-- Mirror of `BlockchainUTXOManager.get_balance(address)` with the
default 3-month window. -/
def getBalance (chain : List Block) (now : Int) (address : String) : Amount :=
  amountSum ((getUtxosByAddress chain now address).map (fun u => u.amount))

/-- The same `get_utxo` query answered by a full scan from genesis
(`scan_blockchain(start_time=None)`), as the specification's §4.4
describes the window as a pure optimization. -/
def fullGetUtxo (chain : List Block) (txid : String) (vout : Nat) :
    Option UTXO :=
  mapGet? (scanBlockchain chain none) (utxoKey txid vout)

/-- The address query answered by a full scan from genesis. -/
def fullGetUtxosByAddress (chain : List Block) (address : String) :
    List UTXO :=
  ((scanBlockchain chain none).map (fun p => p.2)).filter
    (fun u => u.address = address)

/-- The balance query answered by a full scan from genesis. -/
def fullGetBalance (chain : List Block) (address : String) : Amount :=
  amountSum ((fullGetUtxosByAddress chain address).map (fun u => u.amount))

/-! ## The transaction validator (`TransactionValidator`, transaction.py)

ECDSA verification is an oracle `verify : address → signature → txid →
Bool`; the wall-clock reads inside validation are a single logical
validation time `now`.  The validator returns the accepted/rejected flag of
the Python `(bool, message)` pair; a Python exception raised during
validation (script parse error) also counts as not accepted. -/

/-- An ECDSA verification oracle: `verify address signatureText txid`. -/
abbrev SigOracle := String → String → String → Bool

def TX_FAUCET : String := "faucet"

def TX_COPYRIGHT_REG : String := "copyright_register"

def TX_AUTH_LOCK : String := "authorization_lock"

def TX_AUTH_ACTIVATE : String := "authorization_activate"

def TX_RENEWAL : String := "renewal"

def TX_REDEMPTION : String := "redemption"

def TX_SUB_LICENSE : String := "sub_license"

/-- Mirror of `COPYRIGHT_STATE_MACHINE.get(input_type, [])`. -/
def stateMachineNext (t : String) : List String :=
  if t = "sovereignty" then ["instruction"]
  else if t = "instruction" then ["proof"]
  else if t = "proof" then ["proof", "secondary"]
  else []

/-- Mirror of `_validate_copyright_state_transition` (the accepted/rejected
flag): same-type rebuilds are allowed for sovereignty and proof only;
otherwise the transition must be listed in the state-machine table. -/
def validTransition (input_type output_type : String) : Bool :=
  if input_type = output_type then
    (input_type = "sovereignty" ∨ input_type = "proof")
  else (stateMachineNext input_type).contains output_type

/-- The `copyright_type` read `out.payload.get("copyright_type")` on an
output payload dict. -/
def outPayloadType (o : TransactionOutput) : Option String :=
  o.payload.map (fun p => p.copyright_type)

/-- The `work_hash` read `out.payload.get("work_hash")`. -/
def outWorkHash (o : TransactionOutput) : Option String :=
  o.payload.map (fun p => p.work_hash)

/-- The `parent_utxo` read `out.payload.get("parent_utxo")`. -/
def outParentUtxo (o : TransactionOutput) : Option String :=
  o.payload.bind (fun p => p.parent_utxo)

/-- The `rights_scope` read `out.payload.get("rights_scope", [])`. -/
def outRightsScope (o : TransactionOutput) : List String :=
  (o.payload.map (fun p => p.rights_scope)).getD []

/-- Mirror of `sum(out.amount for out in transaction.outputs)`. -/
def outputSum (tx : Transaction) : Amount :=
  amountSum (tx.outputs.map (fun o => o.amount))

/-- Mirror of the `for inp in transaction.inputs` search loops in the
type-specific validators: the payload of the first input that resolves to
a copyright UTXO whose payload `copyright_type` equals `ctype`. -/
def findFirstPayload (chain : List Block) (now : Int)
    (inputs : List TransactionInput) (ctype : String) :
    Option CopyrightPayload :=
  match inputs with
  | [] => none
  | inp :: rest =>
    match getUtxo chain now inp.txid inp.vout with
    | some utxo =>
      if utxo.utxo_type = "copyright" then
        match utxo.payload with
        | some p =>
          if p.copyright_type = ctype then some p
          else findFirstPayload chain now rest ctype
        | none => findFirstPayload chain now rest ctype
      else findFirstPayload chain now rest ctype
    | none => findFirstPayload chain now rest ctype

/-- Mirror of `_verify_signature(inp, transaction)`. -/
def verifySignature (verify : SigOracle) (chain : List Block) (now : Int)
    (inp : TransactionInput) (tx : Transaction) : Bool :=
  match getUtxo chain now inp.txid inp.vout with
  | none => false
  | some utxo =>
    if inp.signatures ≠ [] then
      inp.signatures.all (fun p => verify p.1 p.2 tx.txid)
        && inputFullySigned inp
    else if ¬ optStrTruthy inp.public_key ∨ ¬ optStrTruthy inp.signature then
      false
    else if inp.public_key.getD "" ≠ utxo.address then false
    else verify (inp.public_key.getD "") (inp.signature.getD "") tx.txid

/-- The `end_time` computed in the input loop of `validate_transaction`:
defined (as `payload.get_end_time()`) exactly when the resolved UTXO is
copyright-kind and its payload dict is non-empty (truthy). -/
def inputEndTime (utxo : UTXO) : Option Int :=
  match utxo.payload with
  | some p =>
    if utxo.utxo_type = "copyright"
    then some (p.created_at + authorizationDurationSeconds) else none
  | none => none

/-- Mirror of the per-input body of `validate_transaction` steps 1-3:
resolve the UTXO, verify the signature, parse the lock script, derive the
copyright expiry, and test `can_spend`; returns the UTXO amount when the
input passes, `none` when the transaction is rejected at this input. -/
def singleInputCheck (verify : SigOracle) (chain : List Block) (now : Int)
    (tx : Transaction) (inp : TransactionInput) : Option Amount :=
  match getUtxo chain now inp.txid inp.vout with
  | none => none
  | some utxo =>
    if ¬ verifySignature verify chain now inp tx then none
    else
      match TimeLockScript.fromScriptString utxo.script_pubkey with
      | none => none
      | some script =>
        if canSpend script now [inp.public_key] (inputEndTime utxo)
        then some utxo.amount else none

/-- The input loop of `validate_transaction`, accumulating
`input_amount`; `none` when any input fails. -/
def checkInputs (verify : SigOracle) (chain : List Block) (now : Int)
    (tx : Transaction) : List TransactionInput → Option Amount
  | [] => some 0
  | inp :: rest =>
    match singleInputCheck verify chain now tx inp with
    | none => none
    | some amt => (checkInputs verify chain now tx rest).map (fun s => ratAdd amt s)

/-- Mirror of `_validate_faucet_transaction`. -/
def validateFaucet (tx : Transaction) : Bool :=
  if tx.inputs.length ≠ 0 then false
  else if outputSum tx > 10 then false
  else true

/-- Mirror of `_validate_copyright_register`: non-empty inputs, at least
one copyright output, and every copyright output carries a `work_hash` key
(an absent payload dict has no keys) and `copyright_type = sovereignty`.
No input is resolved, no signature is checked and no amount is compared in
this branch. -/
def validateRegister (tx : Transaction) : Bool :=
  if tx.inputs.length = 0 then false
  else
    let copyrightOutputs := tx.outputs.filter (fun o => o.utxo_type = "copyright")
    if copyrightOutputs.length = 0 then false
    else copyrightOutputs.all (fun o =>
      match o.payload with
      | none => false
      | some p => p.copyright_type = "sovereignty")

/-- Mirror of `_validate_authorization_lock`. -/
def validateAuthorizationLock (chain : List Block) (now : Int)
    (tx : Transaction) : Bool :=
  match findFirstPayload chain now tx.inputs "sovereignty" with
  | none => false
  | some _ =>
    let instructionOuts := tx.outputs.filter (fun o =>
      o.utxo_type = "copyright" ∧ outPayloadType o = some "instruction")
    let sovereigntyOuts := tx.outputs.filter (fun o =>
      o.utxo_type = "copyright" ∧ outPayloadType o = some "sovereignty")
    if instructionOuts.length = 0 then false
    else
      instructionOuts.all (fun o =>
        validTransition "sovereignty" ((outPayloadType o).getD ""))
      && sovereigntyOuts.all (fun o =>
        validTransition "sovereignty" ((outPayloadType o).getD ""))

/-- Mirror of `_validate_authorization_activate` (the expiry test uses the
same clock value `now`). -/
def validateAuthorizationActivate (chain : List Block) (now : Int)
    (tx : Transaction) : Bool :=
  match findFirstPayload chain now tx.inputs "instruction" with
  | none => false
  | some p =>
    if p.isExpired now then false
    else
      let proofOuts := tx.outputs.filter (fun o =>
        o.utxo_type = "copyright" ∧ outPayloadType o = some "proof")
      if proofOuts.length = 0 then false
      else proofOuts.all (fun o =>
        validTransition "instruction" ((outPayloadType o).getD "")
        && ((outWorkHash o).getD "" = p.work_hash))

/-- Mirror of `_validate_renewal`. -/
def validateRenewal (chain : List Block) (now : Int) (tx : Transaction) :
    Bool :=
  match findFirstPayload chain now tx.inputs "proof" with
  | none => false
  | some p =>
    if p.isExpired now then false
    else
      let proofOuts := tx.outputs.filter (fun o =>
        o.utxo_type = "copyright" ∧ outPayloadType o = some "proof")
      if proofOuts.length = 0 then false
      else proofOuts.all (fun o =>
        validTransition "proof" ((outPayloadType o).getD ""))

/-- Mirror of `_validate_sub_license`. -/
def validateSubLicense (chain : List Block) (now : Int) (tx : Transaction) :
    Bool :=
  match findFirstPayload chain now tx.inputs "proof" with
  | none => false
  | some p =>
    let c1Outs := tx.outputs.filter (fun o =>
      o.utxo_type = "copyright" ∧ outPayloadType o = some "proof"
        ∧ ¬ optStrTruthy (outParentUtxo o))
    let c2Outs := tx.outputs.filter (fun o =>
      o.utxo_type = "copyright" ∧ outPayloadType o = some "secondary")
    if c1Outs.length = 0 then false
    else if c2Outs.length = 0 then false
    else
      c1Outs.all (fun o => validTransition "proof" ((outPayloadType o).getD ""))
      && c2Outs.all (fun o => validTransition "proof" ((outPayloadType o).getD ""))
      && c2Outs.all (fun o =>
          (outRightsScope o).all (fun r => p.rights_scope.contains r))

/-- The `work_hash → address` dict built from the inputs whose resolved
UTXO is a copyright UTXO of the given `copyright_type`
(`_validate_address_ownership`); association list with dict semantics. -/
def ownershipInputs (chain : List Block) (now : Int)
    (inputs : List TransactionInput) (ctype : String) :
    List (String × String) :=
  inputs.foldl (fun m inp =>
    match getUtxo chain now inp.txid inp.vout with
    | some utxo =>
      if utxo.utxo_type = "copyright" then
        match utxo.payload with
        | some p =>
          if p.copyright_type = ctype then
            (if m.any (fun q => q.1 = p.work_hash)
              then m.map (fun q => if q.1 = p.work_hash
                then (p.work_hash, utxo.address) else q)
              else m ++ [(p.work_hash, utxo.address)])
          else m
        | none => m
      else m
    | none => m) []

/-- Lookup in the ownership dict. -/
def ownershipLookup (m : List (String × String)) (k : String) :
    Option String :=
  (m.find? (fun q => q.1 = k)).map (fun q => q.2)

/-- The output-side check of `_validate_address_ownership`: every
copyright output of type `ctype` (restricted, for sub-license proof
outputs, to those without a truthy `parent_utxo`) whose `work_hash` is in
the dict must carry the recorded input address. -/
def ownershipOutputsOk (m : List (String × String))
    (outputs : List TransactionOutput) (ctype : String)
    (requireNoParent : Bool) : Bool :=
  outputs.all (fun o =>
    if o.utxo_type = "copyright" ∧ outPayloadType o = some ctype
        ∧ (¬ requireNoParent ∨ ¬ optStrTruthy (outParentUtxo o)) then
      match ownershipLookup m ((outWorkHash o).getD "") with
      | some a => o.address = a
      | none => true
    else true)

/-- Mirror of `_validate_address_ownership`. -/
def validateAddressOwnership (chain : List Block) (now : Int)
    (tx_type : String) (inputs : List TransactionInput)
    (outputs : List TransactionOutput) : Bool :=
  if tx_type = TX_AUTH_LOCK then
    ownershipOutputsOk (ownershipInputs chain now inputs "sovereignty")
      outputs "sovereignty" false
  else if tx_type = TX_RENEWAL then
    ownershipOutputsOk (ownershipInputs chain now inputs "sovereignty")
      outputs "sovereignty" false
    && ownershipOutputsOk (ownershipInputs chain now inputs "proof")
      outputs "proof" false
  else if tx_type = TX_SUB_LICENSE then
    ownershipOutputsOk (ownershipInputs chain now inputs "proof")
      outputs "proof" true
  else if tx_type = TX_AUTH_ACTIVATE then
    ownershipOutputsOk (ownershipInputs chain now inputs "instruction")
      outputs "proof" false
  else true

/-- The type-specific step 5 of `validate_transaction`: each of the four
copyright transaction types runs its specific validator followed by the
address-ownership check; any other type (e.g. `redemption`) has no
specific check. -/
def typeSpecificChecks (chain : List Block) (now : Int) (tx : Transaction) :
    Bool :=
  if tx.tx_type = TX_AUTH_LOCK then
    validateAuthorizationLock chain now tx
    && validateAddressOwnership chain now tx.tx_type tx.inputs tx.outputs
  else if tx.tx_type = TX_AUTH_ACTIVATE then
    validateAuthorizationActivate chain now tx
    && validateAddressOwnership chain now tx.tx_type tx.inputs tx.outputs
  else if tx.tx_type = TX_RENEWAL then
    validateRenewal chain now tx
    && validateAddressOwnership chain now tx.tx_type tx.inputs tx.outputs
  else if tx.tx_type = TX_SUB_LICENSE then
    validateSubLicense chain now tx
    && validateAddressOwnership chain now tx.tx_type tx.inputs tx.outputs
  else true

/-- Mirror of `TransactionValidator.validate_transaction`: the
accepted/rejected flag of the `(bool, message)` result. -/
def validateTransaction (verify : SigOracle) (chain : List Block)
    (now : Int) (tx : Transaction) : Bool :=
  if ¬ txIsFullySigned tx ∧ txUnsignedSigners tx ≠ [] then false
  else if tx.tx_type = TX_FAUCET then validateFaucet tx
  else if tx.tx_type = TX_COPYRIGHT_REG then validateRegister tx
  else
    match checkInputs verify chain now tx tx.inputs with
    | none => false
    | some input_amount =>
      if outputSum tx > input_amount then false
      else typeSpecificChecks chain now tx

/-! ## The miner (`cpc_miner.py`)

`proof_of_work` calls `time.time()` once per loop iteration when it builds
the candidate block; the stream of those clock reads is the parameter
`powClock` (iteration `n` reads `powClock n`).  The unbounded `while True`
search is modelled with explicit fuel: `none` means the search has not
finished within the given number of iterations. -/

/-- Mirror of the `proof_of_work` loop body: build the candidate block at
nonce `n` with a fresh clock read and test the difficulty target. -/
def powLoop (hashB : BlockPreimage → String) (powClock : Nat → Int)
    (last : Block) (transactions : List Transaction) (target : String) :
    Nat → Nat → Option Nat
  | 0, _ => none
  | fuel + 1, n =>
    let candidate := mkBlock hashB (last.index + 1) (powClock n)
      transactions last.hash n
    if strStartsWith candidate.hash target then some n
    else powLoop hashB powClock last transactions target fuel (n + 1)

/-- Mirror of `proof_of_work(last_block, transactions, difficulty=4)`:
the target is `"0" * difficulty` and the nonce search starts at 0. -/
def proofOfWork (hashB : BlockPreimage → String) (powClock : Nat → Int)
    (last : Block) (transactions : List Transaction) (difficulty : Nat)
    (fuel : Nat) : Option Nat :=
  powLoop hashB powClock last transactions
    (String.mk (List.replicate difficulty '0')) fuel 0

/-- Mirror of the per-transaction fee computation in `mine_block`:
`input_amount` sums the amounts of the inputs that still resolve
(`if utxo: input_amount += utxo.amount`). -/
def resolvedInputSum (chain : List Block) (now : Int) (tx : Transaction) :
    Amount :=
  amountSum (tx.inputs.map (fun inp =>
    match getUtxo chain now inp.txid inp.vout with
    | some u => u.amount
    | none => 0))

/-- Mirror of `mine_block(blockchain, pending_transactions)`: re-validate
the pending transactions, total the fees of the accepted ones that have
inputs, append the coinbase (faucet-typed reward of `1.0 + total_fees` to
the miner), run proof-of-work at difficulty 4, and append the new block —
built from a fresh clock read `finalTs` — to the chain.  `none` models a
proof-of-work search that has not finished within `fuel` iterations (the
Python loop would still be running) or an empty chain (Python
`blockchain[-1]` raising). -/
def mineBlock (hashB : BlockPreimage → String) (hashT : TxPreimage → String)
    (verify : SigOracle) (minerAddress : String) (blockchain : List Block)
    (pending : List Transaction) (now rewardTs : Int)
    (powClock : Nat → Int) (finalTs : Int) (fuel : Nat) :
    Option (List Block) :=
  let acc := pending.foldl (fun (acc : List Transaction × Amount) tx =>
    if validateTransaction verify blockchain now tx then
      (acc.1 ++ [tx],
        ratAdd acc.2 (if tx.inputs.length > 0
          then ratSub (resolvedInputSum blockchain now tx) (outputSum tx) else 0))
    else acc) ([], 0)
  let rewardTx := mkTransaction hashT []
    [⟨ratAdd 1 acc.2, minerAddress,
      TimeLockScript.toScriptString ⟨"P2PKH", [minerAddress], 1, none⟩,
      "fuel", none⟩]
    TX_FAUCET [("note", "mining reward")] rewardTs
  let transactions := acc.1 ++ [rewardTx]
  match blockchain.getLast? with
  | none => none
  | some last =>
    match proofOfWork hashB powClock last transactions 4 fuel with
    | none => none
    | some nonce =>
      some (blockchain ++
        [mkBlock hashB (last.index + 1) finalTs transactions last.hash nonce])

/-! ## The claimed transition table and concrete instances

`claimAllowedTransition` is written from the specification's words (the
table of §4.6 step 5), to be compared with `validTransition` from the
source.  The concrete chains and transactions below are used as explicit
inputs for counterexamples and witnesses; their `txid` / `hash` strings
stand for the SHA-256 values of the corresponding Python objects, which
the consensus code treats as opaque keys. -/

/-- The allowed set of the claim: sovereignty → {sovereignty, instruction};
instruction → {proof}; proof → {proof, secondary}; secondary → nothing. -/
def claimAllowedTransition (input_type output_type : String) : Bool :=
  (input_type = "sovereignty"
      ∧ (output_type = "sovereignty" ∨ output_type = "instruction"))
  ∨ (input_type = "instruction" ∧ output_type = "proof")
  ∨ (input_type = "proof"
      ∧ (output_type = "proof" ∨ output_type = "secondary"))

/-- A verification oracle under which every presented signature is valid
(an attacker holding the right keys can always produce such signatures). -/
def oracleTrue : SigOracle := fun _ _ _ => true

def chainC2 : List Block :=
  [⟨0, 100, [⟨[], [⟨1, "A", "P2PKH|A", "fuel", none⟩], "faucet", [], 100, "t0"⟩],
    "0", 0, "h"⟩]

def txC2 : Transaction :=
  ⟨[⟨"t0", 0, none, none, [], []⟩],
   [⟨100, "A", "x", "copyright",
      some ⟨"w", "T", "A", "sovereignty", ["r"], none, 100⟩⟩],
   "copyright_register", [], 100, "c2"⟩

def chainC2w : List Block :=
  [⟨0, 100, [⟨[], [⟨2, "A", "P2PKH|A", "fuel", none⟩], "faucet", [], 100, "t0"⟩],
    "0", 0, "h"⟩]

def txC2w : Transaction :=
  ⟨[⟨"t0", 0, some "s", some "A", [("A", "s")], ["A"]⟩],
   [⟨1, "B", "x", "fuel", none⟩], "redemption", [], 100, "c2w"⟩

def payloadExpired : CopyrightPayload :=
  ⟨"w", "T", "A", "sovereignty", ["r"], none, 0⟩

def chainC3 : List Block :=
  [⟨0, 8000000,
    [⟨[], [⟨1, "A", "P2PKH|A", "copyright", some payloadExpired⟩],
      "faucet", [], 0, "t0"⟩], "0", 0, "h"⟩]

def txC3 : Transaction :=
  ⟨[⟨"t0", 0, none, none, [], []⟩],
   [⟨1, "B", "x", "copyright",
      some ⟨"w", "T", "B", "sovereignty", ["r"], none, 0⟩⟩],
   "copyright_register", [], 8000000, "c3"⟩

def txC3w : Transaction :=
  ⟨[⟨"t0", 0, some "s", some "A", [("A", "s")], ["A"]⟩],
   [⟨1, "B", "x", "fuel", none⟩], "redemption", [], 8000000, "c3w"⟩

def txC4 : Transaction :=
  ⟨[⟨"t9", 0, none, none, [], []⟩],
   [⟨1, "A", "x", "copyright",
      some ⟨"w", "T", "A", "sovereignty", ["r"], none, 0⟩⟩],
   "copyright_register", [], 0, "c4"⟩

def chainC5 : List Block :=
  [⟨0, 100,
    [⟨[], [⟨2, "A", "P2PKH|A", "copyright",
        some ⟨"w", "T", "A", "sovereignty", ["r"], none, 100⟩⟩],
      "faucet", [], 100, "t5"⟩], "0", 0, "h"⟩]

def txC5 : Transaction :=
  ⟨[⟨"t5", 0, some "s", some "A", [("A", "s")], ["A"]⟩],
   [⟨1, "B", "x", "copyright",
      some ⟨"w", "T", "A", "secondary", ["r"], some "t5:0", 100⟩⟩],
   "redemption", [], 100, "c5"⟩

def chainC6 : List Block :=
  [⟨0, 0, [⟨[], [⟨100, "A", "s", "fuel", none⟩], "faucet", [], 0, "t6"⟩],
    "0", 0, "h"⟩]

def chainC6w : List Block :=
  [⟨0, 100, [⟨[], [⟨100, "A", "s", "fuel", none⟩], "faucet", [], 100, "t6"⟩],
    "0", 0, "h"⟩]

def hashT7 : TxPreimage → String := fun _ => "h7"

def txC7 : Transaction :=
  mkTransaction hashT7 [mkInput "t" 0 none (some "A") none] [] "renewal" [] 0

def scriptC8 : TimeLockScript := ⟨"P2PKH", ["a|b"], 1, none⟩

def scriptC8w : TimeLockScript := ⟨"TIMELOCK", ["x", "y"], 2, some 77⟩

def chainC9 : List Block :=
  [⟨0, 100,
    [⟨[], [⟨2, "A", "P2PKH|A", "copyright",
        some ⟨"w", "T", "A", "proof", ["print", "distribute"], none, 100⟩⟩],
      "faucet", [], 100, "t9"⟩], "0", 0, "h"⟩]

def txC9 : Transaction :=
  ⟨[⟨"t9", 0, some "s", some "A", [("A", "s")], ["A"]⟩],
   [⟨1, "A", "x", "copyright",
      some ⟨"w", "T", "A", "proof", ["print", "distribute"], none, 100⟩⟩,
    ⟨1, "B", "x", "copyright",
      some ⟨"w", "T", "A", "secondary", ["print"], some "t9:0", 100⟩⟩],
   "sub_license", [], 100, "c9"⟩

def txC10 : Transaction :=
  ⟨[⟨"zz", 3, none, none, [], []⟩], [⟨1, "A", "s", "fuel", none⟩],
   "renewal", [], 0, "tX"⟩

def hashB1 : BlockPreimage → String :=
  fun bp => if bp.timestamp = 0 then "0000" else "ffff"

def hashT1 : TxPreimage → String := fun _ => "t1"

def chainC1 : List Block := [⟨0, 5, [], "0", 0, "g"⟩]

def pendingC1 : List Transaction :=
  [⟨[], [⟨5, "A", "P2PKH|A", "fuel", none⟩], "faucet", [], 3, "f1"⟩]

/-- The transaction list `mine_block` packages for `pendingC1`: the
accepted faucet transaction followed by the coinbase reward. -/
def minedTxsC1 : List Transaction :=
  pendingC1 ++ [mkTransaction hashT1 []
    [⟨ratAdd 1 0, "M",
      TimeLockScript.toScriptString ⟨"P2PKH", ["M"], 1, none⟩, "fuel", none⟩]
    TX_FAUCET [("note", "mining reward")] 3]

/-- The four copyright state names of the data model. -/
def copyrightTypes : List String :=
  ["sovereignty", "instruction", "proof", "secondary"]

/-! ## Lemmas about the string utilities -/

theorem splitSepChars_ne_nil (sep : Char) (l : List Char) :
    splitSepChars sep l ≠ [] := by
  cases l with
  | nil => simp [splitSepChars]
  | cons c rest =>
    simp only [splitSepChars]
    split <;> simp

theorem splitSepChars_append_sep (sep : Char) (x rest : List Char)
    (hx : sep ∉ x) :
    splitSepChars sep (x ++ sep :: rest) = x :: splitSepChars sep rest := by
  induction x with
  | nil =>
    simp [splitSepChars]
  | cons c cs ih =>
    have hc : c ≠ sep := fun h => hx (h ▸ List.mem_cons_self c cs)
    have hcs : sep ∉ cs := fun h => hx (List.mem_cons_of_mem c h)
    simp only [List.cons_append, splitSepChars, List.append_eq]
    rw [ih hcs]
    simp [hc]

theorem splitSepChars_no_sep (sep : Char) (x : List Char) (hx : sep ∉ x) :
    splitSepChars sep x = [x] := by
  induction x with
  | nil => simp [splitSepChars]
  | cons c cs ih =>
    have hc : c ≠ sep := fun h => hx (h ▸ List.mem_cons_self c cs)
    have hcs : sep ∉ cs := fun h => hx (List.mem_cons_of_mem c h)
    simp [splitSepChars, ih hcs, hc]

theorem splitSepChars_joinSepChars (sep : Char) (L : List (List Char))
    (hne : L ≠ []) (h : ∀ l ∈ L, sep ∉ l) :
    splitSepChars sep (joinSepChars sep L) = L := by
  induction L with
  | nil => exact absurd rfl hne
  | cons x xs ih =>
    cases xs with
    | nil =>
      simpa [joinSepChars] using
        splitSepChars_no_sep sep x (h x (List.mem_cons_self x []))
    | cons y ys =>
      have hx : sep ∉ x := h x (List.mem_cons_self x (y :: ys))
      have hrest : ∀ l ∈ y :: ys, sep ∉ l := fun l hl =>
        h l (List.mem_cons_of_mem x hl)
      simp only [joinSepChars, splitSepChars_append_sep sep x _ hx]
      rw [ih (by simp) hrest]

theorem splitSep_joinSep (sep : Char) (L : List String)
    (hne : L ≠ []) (h : ∀ s ∈ L, sep ∉ s.data) :
    splitSep sep (joinSep sep L) = L := by
  unfold splitSep joinSep
  have hmapne : L.map String.data ≠ [] := by
    simpa using hne
  have hmem : ∀ l ∈ L.map String.data, sep ∉ l := by
    intro l hl
    rcases List.mem_map.mp hl with ⟨s, hs, rfl⟩
    exact h s hs
  rw [show (String.mk (joinSepChars sep (L.map String.data))).data
        = joinSepChars sep (L.map String.data) from rfl,
      splitSepChars_joinSepChars sep _ hmapne hmem]
  rw [List.map_map]
  have h : (String.mk ∘ String.data) = (id : String → String) := by
    funext s; cases s; rfl
  rw [h, List.map_id]

theorem charDigit_digitChar {d : Nat} (hd : d < 10) :
    charDigit? (digitChar d) = some d := by
  interval_cases d <;> decide

theorem digitChar_ne_sep {d : Nat} (hd : d < 10) :
    digitChar d ≠ '|' ∧ digitChar d ≠ ':' ∧ digitChar d ≠ '-' := by
  interval_cases d <;> decide

theorem natChars_digits (n : Nat) :
    ∀ c ∈ natChars n, ∃ d, d < 10 ∧ c = digitChar d := by
  intro c hc
  unfold natChars at hc
  split at hc
  · refine ⟨0, by norm_num, ?_⟩
    simpa using hc
  · rw [List.mem_reverse, List.mem_map] at hc
    rcases hc with ⟨d, hd, rfl⟩
    exact ⟨d, Nat.digits_lt_base (by norm_num) hd, rfl⟩

theorem natChars_no_sep (n : Nat) :
    '|' ∉ natChars n ∧ ':' ∉ natChars n ∧ '-' ∉ natChars n := by
  refine ⟨fun h => ?_, fun h => ?_, fun h => ?_⟩
  · rcases natChars_digits n _ h with ⟨d, hd, he⟩
    exact (digitChar_ne_sep hd).1 he.symm
  · rcases natChars_digits n _ h with ⟨d, hd, he⟩
    exact (digitChar_ne_sep hd).2.1 he.symm
  · rcases natChars_digits n _ h with ⟨d, hd, he⟩
    exact (digitChar_ne_sep hd).2.2 he.symm

theorem intChars_no_sep (i : Int) :
    '|' ∉ intChars i ∧ ':' ∉ intChars i := by
  unfold intChars
  split
  · constructor
    · simp only [List.mem_cons]
      rintro (h | h)
      · exact absurd h.symm (by decide)
      · exact (natChars_no_sep _).1 h
    · simp only [List.mem_cons]
      rintro (h | h)
      · exact absurd h.symm (by decide)
      · exact (natChars_no_sep _).2.1 h
  · exact ⟨(natChars_no_sep _).1, (natChars_no_sep _).2.1⟩

theorem natChars_ne_nil (n : Nat) : natChars n ≠ [] := by
  unfold natChars
  split
  · simp
  · intro h
    rw [List.reverse_eq_nil_iff, List.map_eq_nil_iff] at h
    exact (Nat.digits_ne_nil_iff_ne_zero.mpr (by assumption)) h

theorem parseNatChars_natChars (n : Nat) :
    parseNatChars? (natChars n) = some n := by
  unfold parseNatChars?
  have hall : (natChars n).all (fun c => (charDigit? c).isSome) = true := by
    rw [List.all_eq_true]
    intro c hc
    rcases natChars_digits n c hc with ⟨d, hd, rfl⟩
    rw [charDigit_digitChar hd]; rfl
  rw [if_pos ⟨natChars_ne_nil n, hall⟩]
  congr 1
  by_cases h0 : n = 0
  · subst h0; decide
  · unfold natChars
    rw [if_neg h0, List.foldl_reverse, List.foldr_map]
    have : ∀ L : List Nat, (∀ d ∈ L, d < 10) →
        L.foldr (fun c a => 10 * a + ((charDigit? (digitChar c)).getD 0)) 0
          = Nat.ofDigits 10 L := by
      intro L
      induction L with
      | nil => intro _; simp [Nat.ofDigits]
      | cons d ds ih =>
        intro hL
        have hd : d < 10 := hL d (List.mem_cons_self d ds)
        have hds : ∀ x ∈ ds, x < 10 := fun x hx => hL x (List.mem_cons_of_mem d hx)
        simp only [List.foldr_cons, ih hds, charDigit_digitChar hd,
          Option.getD_some, Nat.ofDigits_cons]
        ring
    rw [this _ (fun d hd => Nat.digits_lt_base (by norm_num) hd),
      Nat.ofDigits_digits]

theorem parseInt_mk_neg (cs : List Char) :
    parseInt? (String.mk ('-' :: cs))
      = (parseNatChars? cs).map (fun n => -(n : Int)) := by
  have h : parseInt? (String.mk ('-' :: cs))
      = if ('-' : Char) = '-' then (parseNatChars? cs).map (fun n => -(n : Int))
        else (parseNatChars? ('-' :: cs)).map (fun n => (n : Int)) := rfl
  rw [h, if_pos rfl]

theorem parseInt_mk_pos (c : Char) (hc : c ≠ '-') (cs : List Char) :
    parseInt? (String.mk (c :: cs))
      = (parseNatChars? (c :: cs)).map (fun n => (n : Int)) := by
  have h : parseInt? (String.mk (c :: cs))
      = if c = '-' then (parseNatChars? cs).map (fun n => -(n : Int))
        else (parseNatChars? (c :: cs)).map (fun n => (n : Int)) := rfl
  rw [h, if_neg hc]

theorem parseInt_intStr (i : Int) : parseInt? (intStr i) = some i := by
  by_cases hneg : i < 0
  · have h : intStr i = String.mk ('-' :: natChars i.natAbs) := by
      unfold intStr intChars
      rw [if_pos hneg]
    rw [h, parseInt_mk_neg, parseNatChars_natChars]
    exact congrArg some (by omega : -(i.natAbs : Int) = i)
  · have h : intStr i = String.mk (natChars i.toNat) := by
      unfold intStr intChars
      rw [if_neg hneg]
    rcases he : natChars i.toNat with _ | ⟨c, rest⟩
    · exact absurd he (natChars_ne_nil _)
    · have hcne : c ≠ '-' := by
        intro hc
        have hm : '-' ∈ natChars i.toNat := by
          rw [he, hc]; exact List.mem_cons_self _ _
        exact (natChars_no_sep _).2.2 hm
      rw [h, he, parseInt_mk_pos c hcne rest, ← he, parseNatChars_natChars]
      exact congrArg some (by omega : ((i.toNat : Int)) = i)

theorem natChars_injective : Function.Injective natChars := by
  intro a b h
  have ha := parseNatChars_natChars a
  have hb := parseNatChars_natChars b
  rw [h, hb] at ha
  exact (Option.some_injective _ ha).symm

/-! ## Lemmas about the UTXO map and the scan -/

theorem utxoKey_right_injective (txid : String) {a b : Nat}
    (h : utxoKey txid a = utxoKey txid b) : a = b := by
  unfold utxoKey at h
  have h2 : txid.data ++ ':' :: natChars a = txid.data ++ ':' :: natChars b :=
    congrArg String.data h
  have h3 : natChars a = natChars b := by
    have := List.append_cancel_left h2
    simpa using this
  exact natChars_injective h3

theorem find?_map_replace (m : UtxoMap) (k2 k : String) (u : UTXO)
    (hne : k2 ≠ k) :
    List.find? (fun p => p.1 = k)
        (m.map (fun q => if q.1 = k2 then (k2, u) else q))
      = List.find? (fun p => p.1 = k) m := by
  induction m with
  | nil => rfl
  | cons q rest ih =>
    by_cases hq2 : q.1 = k2
    · have hqk : ¬ (q.1 = k) := fun h => hne (hq2 ▸ h ▸ rfl)
      simp only [List.map_cons, if_pos hq2]
      rw [List.find?_cons_of_neg _ (by simpa using hne),
        List.find?_cons_of_neg _ (by simpa using hqk), ih]
    · simp only [List.map_cons, if_neg hq2]
      by_cases hqk : q.1 = k
      · rw [List.find?_cons_of_pos _ (by simpa using hqk),
          List.find?_cons_of_pos _ (by simpa using hqk)]
      · rw [List.find?_cons_of_neg _ (by simpa using hqk),
          List.find?_cons_of_neg _ (by simpa using hqk), ih]

theorem find?_map_replace_found (m : UtxoMap) (k : String) (u : UTXO)
    (hc : mapContains m k = true) :
    List.find? (fun p => p.1 = k)
        (m.map (fun q => if q.1 = k then (k, u) else q))
      = some (k, u) := by
  induction m with
  | nil => simp [mapContains] at hc
  | cons q rest ih =>
    by_cases hq : q.1 = k
    · simp only [List.map_cons, if_pos hq]
      rw [List.find?_cons_of_pos _ (by simp)]
    · simp only [List.map_cons, if_neg hq]
      rw [List.find?_cons_of_neg _ (by simpa using hq)]
      have hcr : mapContains rest k = true := by
        simpa [mapContains, List.any_cons, hq] using hc
      exact ih hcr

theorem find?_append_last (m : UtxoMap) (x : String × UTXO) (k : String)
    (hc : mapContains m k = false) :
    List.find? (fun p => p.1 = k) (m ++ [x]) = List.find? (fun p => p.1 = k) [x] := by
  induction m with
  | nil => rfl
  | cons q rest ih =>
    have hq : ¬ (q.1 = k) := by
      intro h
      simp [mapContains, List.any_cons, h] at hc
    have hcr : mapContains rest k = false := by
      simpa [mapContains, List.any_cons, hq] using hc
    rw [List.cons_append, List.find?_cons_of_neg _ (by simpa using hq), ih hcr]

theorem mapGet?_insert_self (m : UtxoMap) (k : String) (u : UTXO) :
    mapGet? (mapInsert m k u) k = some u := by
  unfold mapInsert mapGet?
  by_cases hc : mapContains m k
  · rw [if_pos hc, find?_map_replace_found m k u hc]
    rfl
  · rw [if_neg hc, find?_append_last m (k, u) k (by simpa using hc)]
    simp [List.find?_cons_of_pos]

theorem mapGet?_insert_ne (m : UtxoMap) (k2 k : String) (u : UTXO)
    (hne : k2 ≠ k) : mapGet? (mapInsert m k2 u) k = mapGet? m k := by
  unfold mapInsert mapGet?
  by_cases hc : mapContains m k2
  · rw [if_pos hc, find?_map_replace m k2 k u hne]
  · rw [if_neg hc]
    by_cases hck : mapContains m k
    · congr 1
      induction m with
      | nil => simp [mapContains] at hck
      | cons q rest ih =>
        by_cases hq : q.1 = k
        · rw [List.cons_append, List.find?_cons_of_pos _ (by simpa using hq),
            List.find?_cons_of_pos _ (by simpa using hq)]
        · have hcr : mapContains rest k = true := by
            simpa [mapContains, List.any_cons, hq] using hck
          have hc2 : ¬ mapContains rest k2 = true := by
            intro h
            exact hc (by simpa [mapContains, List.any_cons] using Or.inr h)
          rw [List.cons_append, List.find?_cons_of_neg _ (by simpa using hq),
            List.find?_cons_of_neg _ (by simpa using hq)]
          exact ih hc2 hcr
    · rw [show List.find? (fun p => p.1 = k) (m ++ [(k2, u)])
          = List.find? (fun p => p.1 = k) [(k2, u)] from
            find?_append_last m (k2, u) k (by simpa using hck)]
      rw [List.find?_cons_of_neg _ (by simpa using hne)]
      unfold mapContains at hck
      rw [show List.find? (fun p => p.1 = k) m = none from ?_]
      · rfl
      · rw [List.find?_eq_none]
        intro p hp
        by_contra hpk
        exact hck (by
          rw [List.any_eq_true]
          exact ⟨p, hp, by simpa using hpk⟩)

theorem mapGet?_processOutputs_ne (txid : String)
    (outs : List TransactionOutput) :
    ∀ (m : UtxoMap) (s : Nat) (k : String),
      (∀ j, j < outs.length → utxoKey txid (s + j) ≠ k) →
      mapGet? (processOutputs m txid s outs) k = mapGet? m k := by
  induction outs with
  | nil => intro m s k _; rfl
  | cons o rest ih =>
    intro m s k hk
    have h0 : utxoKey txid s ≠ k := by
      simpa using hk 0 (by simp)
    unfold processOutputs
    rw [ih _ (s + 1) k (fun j hj => by
      have := hk (j + 1) (by simpa using Nat.succ_lt_succ hj)
      simpa [Nat.add_assoc, Nat.add_comm 1 j] using this)]
    exact mapGet?_insert_ne m (utxoKey txid s) k (outputToUtxo txid s o) h0

theorem mapGet?_processOutputs_get (txid : String)
    (outs : List TransactionOutput) :
    ∀ (m : UtxoMap) (s v : Nat) (hv : v < outs.length),
      mapGet? (processOutputs m txid s outs) (utxoKey txid (s + v))
        = some (outputToUtxo txid (s + v) (outs.get ⟨v, hv⟩)) := by
  induction outs with
  | nil => intro m s v hv; exact absurd hv (by simp)
  | cons o rest ih =>
    intro m s v hv
    match v with
    | 0 =>
      unfold processOutputs
      rw [mapGet?_processOutputs_ne txid rest _ (s + 1) _ (fun j hj => by
        intro he
        have := utxoKey_right_injective txid he
        omega)]
      simpa using mapGet?_insert_self m (utxoKey txid s) (outputToUtxo txid s o)
    | w + 1 =>
      unfold processOutputs
      have hw : w < rest.length := by simpa using Nat.lt_of_succ_lt_succ hv
      have := ih (mapInsert m (utxoKey txid s) (outputToUtxo txid s o))
        (s + 1) w hw
      rw [show s + (w + 1) = s + 1 + w from by omega]
      simpa using this

/-- The scan of a chain in which no block is skipped equals the full scan
(auxiliary induction over the chain with a general accumulator). -/
theorem scan_foldl_no_skip (start : Int) (chain : List Block)
    (h : ∀ b ∈ chain, ¬ (optIntTruthy (some start) ∧ b.timestamp < start)) :
    ∀ m : UtxoMap,
      chain.foldl (fun m b =>
        if optIntTruthy (some start) ∧ b.timestamp < start then m
        else b.transactions.foldl applyTransaction m) m
      = chain.foldl (fun m b =>
        if optIntTruthy (none : Option Int) ∧ b.timestamp < (0 : Int) then m
        else b.transactions.foldl applyTransaction m) m := by
  induction chain with
  | nil => intro m; rfl
  | cons b rest ih =>
    intro m
    have hb : ¬ (optIntTruthy (some start) ∧ b.timestamp < start) :=
      h b (List.mem_cons_self b rest)
    have hrest : ∀ x ∈ rest, ¬ (optIntTruthy (some start) ∧ x.timestamp < start) :=
      fun x hx => h x (List.mem_cons_of_mem b hx)
    simp only [List.foldl_cons, if_neg hb,
      if_neg (by simp [optIntTruthy] : ¬ (optIntTruthy (none : Option Int)
        ∧ b.timestamp < (0 : Int)))]
    exact ih hrest _

theorem scanBlockchain_no_skip (chain : List Block) (start : Int)
    (h : ∀ b ∈ chain, ¬ (optIntTruthy (some start) ∧ b.timestamp < start)) :
    scanBlockchain chain (some start) = scanBlockchain chain none := by
  unfold scanBlockchain
  exact scan_foldl_no_skip start chain h []

/-! ## Lemmas about the validator -/

/-- A `can_spend` call with a truthy, already-passed `end_time` returns
false before looking at the script or the signers. -/
theorem canSpend_expired (s : TimeLockScript) (now : Int)
    (signers : List (Option String)) (e : Int) (hne : e ≠ 0)
    (hle : e ≤ now) : canSpend s now signers (some e) = false := by
  unfold canSpend
  rw [if_pos ⟨by simp [optIntTruthy, hne], by simpa using hle⟩]

theorem singleInputCheck_some (verify : SigOracle) (chain : List Block)
    (now : Int) (tx : Transaction) (inp : TransactionInput) (a : Amount)
    (h : singleInputCheck verify chain now tx inp = some a) :
    ∃ u, getUtxo chain now inp.txid inp.vout = some u ∧ a = u.amount ∧
      ∃ script, TimeLockScript.fromScriptString u.script_pubkey = some script
        ∧ canSpend script now [inp.public_key] (inputEndTime u) = true := by
  unfold singleInputCheck at h
  split at h
  · exact absurd h (by simp)
  · rename_i u hg
    split at h
    · exact absurd h (by simp)
    · split at h
      · exact absurd h (by simp)
      · rename_i script hs
        split at h
        · exact ⟨u, hg, (Option.some_inj.mp h).symm, script, hs, by assumption⟩
        · exact absurd h (by simp)

theorem checkInputs_mem (verify : SigOracle) (chain : List Block)
    (now : Int) (tx : Transaction) :
    ∀ (L : List TransactionInput) (s : Amount),
      checkInputs verify chain now tx L = some s →
      ∀ inp ∈ L, ∃ a, singleInputCheck verify chain now tx inp = some a := by
  intro L
  induction L with
  | nil => intro s _ inp hm; exact absurd hm (by simp)
  | cons i0 rest ih =>
    intro s h inp hm
    unfold checkInputs at h
    split at h
    · exact absurd h (by simp)
    · rename_i a0 h0
      rcases Option.map_eq_some'.mp h with ⟨s2, hs2, _⟩
      rcases List.mem_cons.mp hm with rfl | hm2
      · exact ⟨a0, h0⟩
      · exact ih s2 hs2 inp hm2

theorem checkInputs_sum (verify : SigOracle) (chain : List Block)
    (now : Int) (tx : Transaction) :
    ∀ (L : List TransactionInput) (s : Amount),
      checkInputs verify chain now tx L = some s →
      s = amountSum (L.map (fun inp =>
        match getUtxo chain now inp.txid inp.vout with
        | some u => u.amount
        | none => 0)) := by
  intro L
  induction L with
  | nil =>
    intro s h
    unfold checkInputs at h
    simpa using (Option.some_inj.mp h).symm
  | cons i0 rest ih =>
    intro s h
    unfold checkInputs at h
    split at h
    · exact absurd h (by simp)
    · rename_i a0 h0
      rcases Option.map_eq_some'.mp h with ⟨s2, hs2, hsum⟩
      rcases singleInputCheck_some verify chain now tx i0 a0 h0 with
        ⟨u, hg, ha, _⟩
      simp only [List.map_cons, hg, amountSum]
      rw [← hsum, ih s2 hs2, ha]

theorem validate_generic_elim (verify : SigOracle) (chain : List Block)
    (now : Int) (tx : Transaction)
    (h : validateTransaction verify chain now tx = true)
    (hf : tx.tx_type ≠ TX_FAUCET) (hr : tx.tx_type ≠ TX_COPYRIGHT_REG) :
    ∃ s, checkInputs verify chain now tx tx.inputs = some s
      ∧ outputSum tx ≤ s ∧ typeSpecificChecks chain now tx = true := by
  unfold validateTransaction at h
  by_cases h0 : (¬ txIsFullySigned tx ∧ txUnsignedSigners tx ≠ [])
  · rw [if_pos h0] at h; exact absurd h (by simp)
  · rw [if_neg h0, if_neg hf, if_neg hr] at h
    split at h
    · exact absurd h (by simp)
    · rename_i s hck
      by_cases hout : outputSum tx > s
      · rw [if_pos hout] at h; exact absurd h (by simp)
      · rw [if_neg hout] at h
        exact ⟨s, hck, le_of_not_lt hout, h⟩

theorem validate_register_elim (verify : SigOracle) (chain : List Block)
    (now : Int) (tx : Transaction)
    (h : validateTransaction verify chain now tx = true)
    (hr : tx.tx_type = TX_COPYRIGHT_REG) : validateRegister tx = true := by
  unfold validateTransaction at h
  by_cases h0 : (¬ txIsFullySigned tx ∧ txUnsignedSigners tx ≠ [])
  · rw [if_pos h0] at h; exact absurd h (by simp)
  · rw [if_neg h0, hr, if_neg (by decide), if_pos rfl] at h
    exact h

theorem typeSpecific_sub_license_elim (chain : List Block) (now : Int)
    (tx : Transaction) (h : typeSpecificChecks chain now tx = true)
    (hty : tx.tx_type = TX_SUB_LICENSE) :
    validateSubLicense chain now tx = true := by
  unfold typeSpecificChecks at h
  rw [hty, if_neg (by decide), if_neg (by decide), if_neg (by decide),
    if_pos rfl] at h
  simp only [Bool.and_eq_true] at h
  exact h.1

/-! ## Claim C2 -/

/-- C2 (counterexample): a `copyright_register` transaction whose single
input resolves to a 1-coin UTXO but whose outputs total 100 coins is
accepted by the validator — value conservation is not checked for
registrations, contradicting the claim that it holds for every non-faucet
transaction including `copyright_register`. -/
theorem C2_register_breaks_value_conservation :
    validateTransaction oracleTrue chainC2 100 txC2 = true
    ∧ txC2.tx_type = TX_COPYRIGHT_REG
    ∧ (getUtxo chainC2 100 "t0" 0).map (fun u => u.amount) = some 1
    ∧ resolvedInputSum chainC2 100 txC2 = 1
    ∧ outputSum txC2 = 100 := by
  refine ⟨by decide, by decide, by decide, by decide, by decide⟩

/-- C2 (amended): for every transaction accepted by the validator whose
type is neither `faucet` nor `copyright_register`, every input resolves
through the state engine and the sum of the resolved input amounts is at
least the sum of the output amounts (the difference being the fee the
miner later collects). -/
theorem C2_value_conservation (verify : SigOracle) (chain : List Block)
    (now : Int) (tx : Transaction)
    (hacc : validateTransaction verify chain now tx = true)
    (hf : tx.tx_type ≠ TX_FAUCET) (hr : tx.tx_type ≠ TX_COPYRIGHT_REG) :
    (∀ inp ∈ tx.inputs, (getUtxo chain now inp.txid inp.vout).isSome = true)
    ∧ outputSum tx ≤ resolvedInputSum chain now tx := by
  obtain ⟨s, hck, hle, _⟩ := validate_generic_elim verify chain now tx hacc hf hr
  constructor
  · intro inp hm
    obtain ⟨a, ha⟩ := checkInputs_mem verify chain now tx tx.inputs s hck inp hm
    obtain ⟨u, hg, _⟩ := singleInputCheck_some verify chain now tx inp a ha
    rw [hg]; rfl
  · have hsum := checkInputs_sum verify chain now tx tx.inputs s hck
    unfold resolvedInputSum
    rw [← hsum]
    exact hle

/-- C2 (witness): the amended statement evaluated on a concrete accepted
redemption transaction spending a 2-coin UTXO into a 1-coin output. -/
theorem C2_value_conservation_witness :
    validateTransaction oracleTrue chainC2w 100 txC2w = true
    ∧ ((∀ inp ∈ txC2w.inputs,
          (getUtxo chainC2w 100 inp.txid inp.vout).isSome = true)
        ∧ outputSum txC2w ≤ resolvedInputSum chainC2w 100 txC2w) :=
  ⟨by decide,
    C2_value_conservation oracleTrue chainC2w 100 txC2w (by decide)
      (by decide) (by decide)⟩

/-! ## Claim C3 -/

/-- C3 (counterexample): a `copyright_register` transaction consuming an
input that resolves to a copyright UTXO whose payload satisfies
`created_at + 90 days ≤ now` is accepted — the register branch never
examines its inputs, contradicting the claim that such a transaction is
rejected whatever its type. -/
theorem C3_register_accepts_expired_input :
    validateTransaction oracleTrue chainC3 8000000 txC3 = true
    ∧ (getUtxo chainC3 8000000 "t0" 0).map (fun u => u.utxo_type)
        = some "copyright"
    ∧ (getUtxo chainC3 8000000 "t0" 0).map (fun u => u.payload)
        = some (some payloadExpired)
    ∧ payloadExpired.created_at + authorizationDurationSeconds ≤ 8000000 := by
  refine ⟨by decide, by decide, by decide, by decide⟩

/-- C3 (amended): for every transaction whose type is neither `faucet` nor
`copyright_register`, if some input resolves to a copyright UTXO carrying
a (non-empty) payload with `created_at + 90 days ≤ now` — the derived
`end_time` being truthy, i.e. non-zero — the validator rejects the
transaction, whatever signatures are presented. -/
theorem C3_expired_input_rejected (verify : SigOracle) (chain : List Block)
    (now : Int) (tx : Transaction) (inp : TransactionInput)
    (u : UTXO) (p : CopyrightPayload)
    (hf : tx.tx_type ≠ TX_FAUCET) (hr : tx.tx_type ≠ TX_COPYRIGHT_REG)
    (hmem : inp ∈ tx.inputs)
    (hres : getUtxo chain now inp.txid inp.vout = some u)
    (hkind : u.utxo_type = "copyright") (hp : u.payload = some p)
    (hexp : p.created_at + authorizationDurationSeconds ≤ now)
    (hnz : p.created_at + authorizationDurationSeconds ≠ 0) :
    validateTransaction verify chain now tx = false := by
  by_contra hne
  have hacc : validateTransaction verify chain now tx = true :=
    eq_true_of_ne_false hne
  obtain ⟨s, hck, _, _⟩ := validate_generic_elim verify chain now tx hacc hf hr
  obtain ⟨a, ha⟩ := checkInputs_mem verify chain now tx tx.inputs s hck inp hmem
  obtain ⟨u2, hg2, _, script, _, hcs⟩ :=
    singleInputCheck_some verify chain now tx inp a ha
  rw [hres] at hg2
  obtain rfl : u = u2 := Option.some_inj.mp hg2
  have hend : inputEndTime u
      = some (p.created_at + authorizationDurationSeconds) := by
    simp [inputEndTime, hp, hkind]
  rw [hend, canSpend_expired script now _ _ hnz hexp] at hcs
  exact absurd hcs (by simp)

/-- C3 (witness): a concrete redemption transaction spending the expired
copyright UTXO of `chainC3` is rejected. -/
theorem C3_expired_input_rejected_witness :
    getUtxo chainC3 8000000 "t0" 0
        = some (outputToUtxo "t0" 0
            ⟨1, "A", "P2PKH|A", "copyright", some payloadExpired⟩)
    ∧ validateTransaction oracleTrue chainC3 8000000 txC3w = false :=
  ⟨by decide,
    C3_expired_input_rejected oracleTrue chainC3 8000000 txC3w
      ⟨"t0", 0, some "s", some "A", [("A", "s")], ["A"]⟩
      (outputToUtxo "t0" 0
        ⟨1, "A", "P2PKH|A", "copyright", some payloadExpired⟩)
      payloadExpired (by decide) (by decide) (by decide) (by decide)
      (by decide) (by decide) (by decide) (by decide)⟩

/-! ## Claim C4 -/

/-- C4 (counterexample): a `copyright_register` transaction whose only
input references an outpoint unknown to the state engine (the chain is
empty) is accepted — the register branch returns before the generic
per-input resolution check, so no `spent_or_unknown` failure occurs. -/
theorem C4_register_accepts_unknown_input :
    validateTransaction oracleTrue [] 0 txC4 = true
    ∧ getUtxo [] 0 "t9" 0 = none
    ∧ txC4.inputs.map (fun i => (i.txid, i.vout)) = [("t9", 0)] := by
  refine ⟨by decide, by decide, by decide⟩

/-- C4 (amended): every accepted `copyright_register` transaction has
non-empty inputs and at least one copyright-kind output, and every
copyright-kind output carries a payload (so the `work_hash` key is
present, though possibly empty) with `copyright_type = sovereignty`; the
generic per-input checks — in particular UTXO resolution — are not
applied to registrations. -/
theorem C4_register_shape (verify : SigOracle) (chain : List Block)
    (now : Int) (tx : Transaction)
    (hacc : validateTransaction verify chain now tx = true)
    (hty : tx.tx_type = TX_COPYRIGHT_REG) :
    tx.inputs ≠ []
    ∧ tx.outputs.filter (fun o => o.utxo_type = "copyright") ≠ []
    ∧ ∀ o ∈ tx.outputs.filter (fun o => o.utxo_type = "copyright"),
        ∃ p, o.payload = some p ∧ p.copyright_type = "sovereignty" := by
  have hreg := validate_register_elim verify chain now tx hacc hty
  simp only [validateRegister] at hreg
  by_cases h1 : tx.inputs.length = 0
  · rw [if_pos h1] at hreg; exact absurd hreg (by simp)
  · rw [if_neg h1] at hreg
    by_cases h2 : (tx.outputs.filter (fun o => o.utxo_type = "copyright")).length = 0
    · rw [if_pos h2] at hreg; exact absurd hreg (by simp)
    · rw [if_neg h2] at hreg
      refine ⟨fun he => h1 (by rw [he]; rfl), fun he => h2 (by rw [he]; rfl), ?_⟩
      intro o ho
      have hall := List.all_eq_true.mp hreg o ho
      rcases hp : o.payload with _ | p
      · rw [hp] at hall; exact absurd hall (by simp)
      · rw [hp] at hall
        exact ⟨p, rfl, by simpa using hall⟩

/-- C4 (witness): the amended statement evaluated on the concrete accepted
registration `txC4` over the empty chain. -/
theorem C4_register_shape_witness :
    validateTransaction oracleTrue [] 0 txC4 = true
    ∧ (txC4.inputs ≠ []
      ∧ txC4.outputs.filter (fun o => o.utxo_type = "copyright") ≠ []
      ∧ ∀ o ∈ txC4.outputs.filter (fun o => o.utxo_type = "copyright"),
          ∃ p, o.payload = some p ∧ p.copyright_type = "sovereignty") :=
  ⟨by decide, C4_register_shape oracleTrue [] 0 txC4 (by decide) (by decide)⟩

/-! ## Claim C9 -/

/-- C9: every accepted `sub_license` transaction has a parent proof input
(the first input resolving to a proof-typed copyright UTXO), and the
`rights_scope` of every secondary-typed copyright output is a subset of
that parent payload's `rights_scope`; consequently the union of the
secondary outputs' scopes is a subset of the parent's scope. -/
theorem C9_sub_license_rights_subset (verify : SigOracle)
    (chain : List Block) (now : Int) (tx : Transaction)
    (hacc : validateTransaction verify chain now tx = true)
    (hty : tx.tx_type = TX_SUB_LICENSE) :
    ∃ p, findFirstPayload chain now tx.inputs "proof" = some p
      ∧ (∀ o ∈ tx.outputs, o.utxo_type = "copyright" →
          outPayloadType o = some "secondary" →
          ∀ r ∈ outRightsScope o, r ∈ p.rights_scope)
      ∧ ∀ r ∈ (tx.outputs.filter (fun o =>
            o.utxo_type = "copyright" ∧ outPayloadType o = some "secondary")).flatMap
            outRightsScope, r ∈ p.rights_scope := by
  have hfa : tx.tx_type ≠ TX_FAUCET := by rw [hty]; decide
  have hre : tx.tx_type ≠ TX_COPYRIGHT_REG := by rw [hty]; decide
  obtain ⟨s, _, _, hts⟩ := validate_generic_elim verify chain now tx hacc hfa hre
  have hsub := typeSpecific_sub_license_elim chain now tx hts hty
  simp only [validateSubLicense] at hsub
  split at hsub
  · exact absurd hsub (by simp)
  · rename_i p hfp
    split_ifs at hsub with h1 h2
    simp only [Bool.and_eq_true] at hsub
    have hsubset := hsub.2
    have hperO : ∀ o ∈ tx.outputs.filter (fun o =>
        o.utxo_type = "copyright" ∧ outPayloadType o = some "secondary"),
        ∀ r ∈ outRightsScope o, r ∈ p.rights_scope := by
      intro o ho r hr
      have hall := List.all_eq_true.mp hsubset o ho
      have h3 := List.all_eq_true.mp hall r hr
      exact List.mem_of_elem_eq_true (by simpa using h3)
    refine ⟨p, hfp, ?_, ?_⟩
    · intro o ho hk hsec r hr
      exact hperO o (by
        rw [List.mem_filter]
        exact ⟨ho, by simp [hk, hsec]⟩) r hr
    · intro r hr
      rcases List.mem_flatMap.mp hr with ⟨o, ho, hro⟩
      exact hperO o ho r hro

/-- C9 (witness): the statement evaluated on a concrete accepted
sub-license whose parent proof holds rights print and distribute and whose
secondary output requests print. -/
theorem C9_sub_license_rights_subset_witness :
    validateTransaction oracleTrue chainC9 100 txC9 = true
    ∧ ∃ p, findFirstPayload chainC9 100 txC9.inputs "proof" = some p
      ∧ (∀ o ∈ txC9.outputs, o.utxo_type = "copyright" →
          outPayloadType o = some "secondary" →
          ∀ r ∈ outRightsScope o, r ∈ p.rights_scope)
      ∧ ∀ r ∈ (txC9.outputs.filter (fun o =>
            o.utxo_type = "copyright" ∧ outPayloadType o = some "secondary")).flatMap
            outRightsScope, r ∈ p.rights_scope :=
  ⟨by decide,
    C9_sub_license_rights_subset oracleTrue chainC9 100 txC9 (by decide)
      (by decide)⟩

/-! ## Claim C10 -/

/-- C10: the scan is robust on arbitrary chains — consuming an input whose
key is absent from the accumulated UTXO map leaves the map unchanged (the
membership-guarded delete), and every output of a transaction is inserted
unconditionally: after processing a transaction from any accumulated map,
looking up output `v` of that transaction yields exactly the UTXO built
from it.  (Totality of `scan_blockchain` itself is immediate: the
embedding is a total function of the chain.) -/
theorem C10_scan_robust (m : UtxoMap) (tx : Transaction) (v : Nat)
    (hv : v < tx.outputs.length) :
    (∀ inp : TransactionInput,
      mapContains m (utxoKey inp.txid inp.vout) = false → spendInput m inp = m)
    ∧ mapGet? (applyTransaction m tx) (utxoKey tx.txid v)
        = some (outputToUtxo tx.txid v (tx.outputs.get ⟨v, hv⟩)) := by
  constructor
  · intro inp hni
    simp only [spendInput]
    rw [if_neg (by simp [hni])]
  · have := mapGet?_processOutputs_get tx.txid tx.outputs
      (tx.inputs.foldl spendInput m) 0 v hv
    simpa using this

/-- C10 (witness): evaluated on a transaction whose only input references
an outpoint absent from the (empty) accumulated map. -/
theorem C10_scan_robust_witness :
    0 < txC10.outputs.length
    ∧ ((∀ inp : TransactionInput,
        mapContains [] (utxoKey inp.txid inp.vout) = false →
          spendInput [] inp = [])
      ∧ mapGet? (applyTransaction [] txC10) (utxoKey txC10.txid 0)
          = some (outputToUtxo txC10.txid 0 (txC10.outputs.get ⟨0, by decide⟩))) :=
  ⟨by decide, C10_scan_robust [] txC10 0 (by decide)⟩

/-! ## Claim C6 -/

/-- C6 (counterexample): on a chain whose only block has timestamp 0,
queried at `now = 10000000`, the windowed queries and the full-scan
queries disagree: the 100-coin UTXO of address A is invisible to the
3-month window. -/
theorem C6_window_changes_results :
    getUtxo chainC6 10000000 "t6" 0 = none
    ∧ fullGetUtxo chainC6 "t6" 0
        = some (outputToUtxo "t6" 0 ⟨100, "A", "s", "fuel", none⟩)
    ∧ getBalance chainC6 10000000 "A" = 0
    ∧ fullGetBalance chainC6 "A" = 100
    ∧ getUtxosByAddress chainC6 10000000 "A" = []
    ∧ fullGetUtxosByAddress chainC6 "A"
        = [outputToUtxo "t6" 0 ⟨100, "A", "s", "fuel", none⟩] := by
  refine ⟨by decide, by decide, by decide, by decide, by decide, by decide⟩

/-- C6 (amended): skipping blocks older than the scan window is harmless
only when it skips nothing — if every block of the chain passes the window
test (its timestamp is at least `now` minus 3 months, or the window start
is the falsy value 0), then `get_utxo`, `get_utxos_by_address` and
`get_balance` with the default window equal the full-scan queries. -/
theorem C6_window_noop (chain : List Block) (now : Int)
    (h : ∀ b ∈ chain, ¬ (optIntTruthy (some (now - 3 * 30 * 24 * 3600))
        ∧ b.timestamp < now - 3 * 30 * 24 * 3600)) :
    (∀ txid vout, getUtxo chain now txid vout = fullGetUtxo chain txid vout)
    ∧ (∀ a, getUtxosByAddress chain now a = fullGetUtxosByAddress chain a)
    ∧ (∀ a, getBalance chain now a = fullGetBalance chain a) := by
  have hs := scanBlockchain_no_skip chain (now - 3 * 30 * 24 * 3600) h
  refine ⟨fun txid vout => ?_, fun a => ?_, fun a => ?_⟩
  · unfold getUtxo fullGetUtxo
    rw [hs]
  · unfold getUtxosByAddress fullGetUtxosByAddress
    rw [hs]
  · unfold getBalance fullGetBalance getUtxosByAddress fullGetUtxosByAddress
    rw [hs]

/-- C6 (witness): on a chain whose block lies inside the window, the three
windowed queries agree with the full scan. -/
theorem C6_window_noop_witness :
    (∀ b ∈ chainC6w, ¬ (optIntTruthy (some ((100 : Int) - 3 * 30 * 24 * 3600))
        ∧ b.timestamp < (100 : Int) - 3 * 30 * 24 * 3600))
    ∧ ((∀ txid vout,
          getUtxo chainC6w 100 txid vout = fullGetUtxo chainC6w txid vout)
      ∧ (∀ a, getUtxosByAddress chainC6w 100 a = fullGetUtxosByAddress chainC6w a)
      ∧ (∀ a, getBalance chainC6w 100 a = fullGetBalance chainC6w a)) :=
  ⟨by decide, C6_window_noop chainC6w 100 (by decide)⟩

/-! ## Claim C5 -/

/-- C5 (counterexample): a `redemption` transaction turning a sovereignty
copyright UTXO of work `w` into a secondary output of the same work is
accepted — the validator never checks the state machine for this
transaction type — although sovereignty → secondary is outside the
allowed set. -/
theorem C5_redemption_skips_state_machine :
    validateTransaction oracleTrue chainC5 100 txC5 = true
    ∧ ((getUtxo chainC5 100 "t5" 0).bind (fun u => u.payload)).map
        (fun p => (p.copyright_type, p.work_hash)) = some ("sovereignty", "w")
    ∧ (getUtxo chainC5 100 "t5" 0).map (fun u => u.utxo_type)
        = some "copyright"
    ∧ txC5.outputs.map (fun o => (o.utxo_type,
        (outPayloadType o).getD "", (outWorkHash o).getD ""))
        = [("copyright", "secondary", "w")]
    ∧ claimAllowedTransition "sovereignty" "secondary" = false
    ∧ validTransition "sovereignty" "secondary" = false := by
  refine ⟨by decide, by decide, by decide, by decide, by decide, by decide⟩

/-- C5 (amended): on the four copyright state names, the pairwise
transition checker `_validate_copyright_state_transition` implements
exactly the claimed table — sovereignty → {sovereignty, instruction},
instruction → {proof}, proof → {proof, secondary}, secondary → nothing —
but the validator invokes the checker only on outputs already filtered to
allowed target types within the four transition transaction types, so
transactions of other types (or with extra copyright inputs/outputs) are
accepted without any pairwise check. -/
theorem C5_transition_checker_matches_table (a b : String)
    (ha : a ∈ copyrightTypes) (hb : b ∈ copyrightTypes) :
    validTransition a b = claimAllowedTransition a b := by
  fin_cases ha <;> fin_cases hb <;> decide

/-- C5 (witness): the table equivalence at the pair
sovereignty → secondary. -/
theorem C5_transition_checker_matches_table_witness :
    ("sovereignty" ∈ copyrightTypes ∧ "secondary" ∈ copyrightTypes)
    ∧ validTransition "sovereignty" "secondary"
        = claimAllowedTransition "sovereignty" "secondary" :=
  ⟨by decide,
    C5_transition_checker_matches_table "sovereignty" "secondary"
      (by decide) (by decide)⟩

/-! ## Claim C1 -/

/-- C1: mining over `chainC1` at difficulty 4 succeeds — `proof_of_work`
finds nonce 0, whose candidate block (built at the proof-of-work clock
reading 0) hashes to `"0000"` — yet the block actually appended is rebuilt
with a fresh clock reading (1), so its stored hash is `"ffff"`, which does
not start with four zero characters. -/
theorem C1_mined_block_misses_difficulty_target :
    (mineBlock hashB1 hashT1 oracleTrue "M" chainC1 pendingC1 5 3
        (fun _ => 0) 1 7).map (fun c => c.map Block.hash)
      = some ["g", "ffff"]
    ∧ powLoop hashB1 (fun _ => 0) ⟨0, 5, [], "0", 0, "g"⟩ minedTxsC1
        (String.mk (List.replicate 4 '0')) 7 0 = some 0
    ∧ strStartsWith (mkBlock hashB1 1 0 minedTxsC1 "g" 0).hash "0000" = true
    ∧ strStartsWith "ffff" "0000" = false := by
  refine ⟨by decide, by decide, by decide, by decide⟩

/-! ## Claim C7 -/

/-- C7: `Transaction.add_signature` leaves the other fields untouched and
only extends the indexed input's signature table, but it recomputes the
txid over a preimage that includes that table, and the preimage does
change — so with the collision-free SHA-256 of the source the txid
changes, contradicting the claim that it stays fixed. -/
theorem C7_add_signature_changes_txid_preimage :
    (Transaction.addSignature hashT7 txC7 0 "B" "s").inputs.map
        (fun i => i.signatures) = [[("B", "s")]]
    ∧ txC7.inputs.map (fun i => i.signatures) = [[]]
    ∧ (Transaction.addSignature hashT7 txC7 0 "B" "s").outputs = txC7.outputs
    ∧ (Transaction.addSignature hashT7 txC7 0 "B" "s").tx_type = txC7.tx_type
    ∧ (Transaction.addSignature hashT7 txC7 0 "B" "s").timestamp = txC7.timestamp
    ∧ (Transaction.addSignature hashT7 txC7 0 "B" "s").metadata = txC7.metadata
    ∧ (Transaction.addSignature hashT7 txC7 0 "B" "s").inputs.map
        (fun i => i.required_signers) = txC7.inputs.map (fun i => i.required_signers)
    ∧ (Transaction.addSignature hashT7 txC7 0 "B" "s").txid
        = calcTxid hashT7 (Transaction.addSignature hashT7 txC7 0 "B" "s")
    ∧ txPreimage (Transaction.addSignature hashT7 txC7 0 "B" "s")
        ≠ txPreimage txC7 := by
  refine ⟨by decide, by decide, by decide, by decide, by decide, by decide,
    by decide, by decide, by decide⟩

/-! ## Claim C8 -/

theorem strData_append (a b : String) : (a ++ b).data = a.data ++ b.data := rfl

theorem intStr_data (i : Int) : (intStr i).data = intChars i := rfl

theorem isPrefixOf_append_self (p l : List Char) :
    p.isPrefixOf (p ++ l) = true := by
  induction p with
  | nil => simp [List.isPrefixOf]
  | cons c cs ih => simp [List.isPrefixOf, ih]

theorem strStartsWith_append (p s : String) : strStartsWith (p ++ s) p = true := by
  unfold strStartsWith
  rw [strData_append]
  exact isPrefixOf_append_self p.data s.data

theorem isPrefixOf_cons_ne {c c' : Char} (h : ¬ (c = c')) (as bs : List Char) :
    (c :: as).isPrefixOf (c' :: bs) = false := by
  simp [List.isPrefixOf, h]

theorem cltvPart_not_multisig (t : Int) :
    strStartsWith ("CHECKLOCKTIMEVERIFY:" ++ intStr t) "MULTISIG:" = false := by
  unfold strStartsWith
  rw [show ("CHECKLOCKTIMEVERIFY:" ++ intStr t).data
      = 'C' :: ("HECKLOCKTIMEVERIFY:".data ++ (intStr t).data) from rfl,
    show ("MULTISIG:".data : List Char) = 'M' :: "ULTISIG:".data from rfl]
  exact isPrefixOf_cons_ne (by decide) _ _

theorem msPart_not_cltv (r n : Int) :
    strStartsWith ("MULTISIG:" ++ intStr r ++ ":" ++ intStr n)
      "CHECKLOCKTIMEVERIFY:" = false := by
  unfold strStartsWith
  rw [show ("MULTISIG:" ++ intStr r ++ ":" ++ intStr n).data
      = 'M' :: ((("ULTISIG:".data ++ (intStr r).data) ++ ":".data)
          ++ (intStr n).data) from rfl,
    show ("CHECKLOCKTIMEVERIFY:".data : List Char)
      = 'C' :: "HECKLOCKTIMEVERIFY:".data from rfl]
  exact isPrefixOf_cons_ne (by decide) _ _

theorem msPart_starts_multisig (r n : Int) :
    strStartsWith ("MULTISIG:" ++ intStr r ++ ":" ++ intStr n)
      "MULTISIG:" = true := by
  unfold strStartsWith
  rw [strData_append, strData_append, strData_append, List.append_assoc,
    List.append_assoc]
  exact isPrefixOf_append_self _ _

theorem cltvPart_no_pipe (t : Int) :
    '|' ∉ ("CHECKLOCKTIMEVERIFY:" ++ intStr t).data := by
  rw [strData_append]
  intro h
  rcases List.mem_append.mp h with h | h
  · exact absurd h (by decide)
  · exact (intChars_no_sep t).1 h

theorem msPart_no_pipe (r n : Int) :
    '|' ∉ ("MULTISIG:" ++ intStr r ++ ":" ++ intStr n).data := by
  rw [strData_append, strData_append, strData_append]
  intro h
  rcases List.mem_append.mp h with h | h
  · rcases List.mem_append.mp h with h | h
    · rcases List.mem_append.mp h with h | h
      · exact absurd h (by decide)
      · exact (intChars_no_sep r).1 h
    · exact absurd h (by decide)
  · exact (intChars_no_sep n).1 h

theorem fromStringStep_plain (acc : Option Int × Int × List String)
    (part : String)
    (h1 : strStartsWith part "CHECKLOCKTIMEVERIFY:" = false)
    (h2 : strStartsWith part "MULTISIG:" = false) :
    fromStringStep acc part = some (acc.1, acc.2.1, acc.2.2 ++ [part]) := by
  unfold fromStringStep
  rw [if_neg (by simp [h1]), if_neg (by simp [h2])]

theorem foldlM_fromStringStep_plain (parts : List String)
    (hp : ∀ a ∈ parts, strStartsWith a "CHECKLOCKTIMEVERIFY:" = false
        ∧ strStartsWith a "MULTISIG:" = false) :
    ∀ acc : Option Int × Int × List String,
      parts.foldlM fromStringStep acc
        = some (acc.1, acc.2.1, acc.2.2 ++ parts) := by
  induction parts with
  | nil => intro acc; simp
  | cons a rest ih =>
    intro acc
    rw [List.foldlM_cons,
      fromStringStep_plain acc a (hp a (List.mem_cons_self a rest)).1
        (hp a (List.mem_cons_self a rest)).2]
    rw [show ((some (acc.1, acc.2.1, acc.2.2 ++ [a])
        >>= fun b => rest.foldlM fromStringStep b)
        = rest.foldlM fromStringStep (acc.1, acc.2.1, acc.2.2 ++ [a])) from rfl]
    rw [ih (fun x hx => hp x (List.mem_cons_of_mem a hx))
      (acc.1, acc.2.1, acc.2.2 ++ [a])]
    simp

theorem fromStringStep_cltv (acc : Option Int × Int × List String) (t : Int) :
    fromStringStep acc ("CHECKLOCKTIMEVERIFY:" ++ intStr t)
      = some (some t, acc.2.1, acc.2.2) := by
  unfold fromStringStep
  rw [if_pos (strStartsWith_append "CHECKLOCKTIMEVERIFY:" (intStr t))]
  have hsplit : splitSep ':' ("CHECKLOCKTIMEVERIFY:" ++ intStr t)
      = ["CHECKLOCKTIMEVERIFY", intStr t] := by
    unfold splitSep
    rw [show ("CHECKLOCKTIMEVERIFY:" ++ intStr t).data
        = "CHECKLOCKTIMEVERIFY".data ++ ':' :: intChars t from rfl]
    rw [splitSepChars_append_sep ':' _ _ (by decide),
      splitSepChars_no_sep ':' (intChars t) (intChars_no_sep t).2]
    rfl
  rw [hsplit]
  simp [parseInt_intStr]

theorem fromStringStep_multisig (acc : Option Int × Int × List String)
    (r n : Int) :
    fromStringStep acc ("MULTISIG:" ++ intStr r ++ ":" ++ intStr n)
      = some (acc.1, r, acc.2.2) := by
  unfold fromStringStep
  rw [if_neg (by simp [msPart_not_cltv r n]),
    if_pos (msPart_starts_multisig r n)]
  have hsplit : splitSep ':' ("MULTISIG:" ++ intStr r ++ ":" ++ intStr n)
      = ["MULTISIG", intStr r, intStr n] := by
    unfold splitSep
    have hd : ("MULTISIG:" ++ intStr r ++ ":" ++ intStr n).data
        = "MULTISIG".data ++ ':' :: (intChars r ++ ':' :: intChars n) := by
      rw [strData_append, strData_append, strData_append,
        show ("MULTISIG:".data : List Char) = "MULTISIG".data ++ [':'] from rfl,
        show (":".data : List Char) = [':'] from rfl, intStr_data, intStr_data]
      simp [List.append_assoc]
    rw [hd, splitSepChars_append_sep ':' _ _ (by decide),
      splitSepChars_append_sep ':' (intChars r) _ (intChars_no_sep r).2,
      splitSepChars_no_sep ':' (intChars n) (intChars_no_sep n).2]
    rfl
  rw [hsplit]
  simp [parseInt_intStr]

theorem fromScriptString_cons (str st : String) (rest : List String)
    (h : splitSep '|' str = st :: rest) :
    TimeLockScript.fromScriptString str
      = (rest.foldlM fromStringStep
          ((none : Option Int), (1 : Int), ([] : List String))).map
        (fun acc => ⟨st, acc.2.2, acc.2.1, acc.1⟩) := by
  unfold TimeLockScript.fromScriptString
  rw [h]

/-- C8 (counterexample): the script with the single address `a|b`
serializes to `P2PKH|a|b`, which parses back with two addresses `a` and
`b` — the round-trip is not exact. -/
theorem C8_roundtrip_fails_on_pipe_address :
    TimeLockScript.toScriptString scriptC8 = "P2PKH|a|b"
    ∧ TimeLockScript.fromScriptString (TimeLockScript.toScriptString scriptC8)
        = some ⟨"P2PKH", ["a", "b"], 1, none⟩
    ∧ TimeLockScript.fromScriptString (TimeLockScript.toScriptString scriptC8)
        ≠ some scriptC8 := by
  refine ⟨by decide, by decide, by decide⟩

/-- C8 (amended): serialization round-trips exactly for every script whose
`required_sig_num` is at least 1, whose `script_type` and addresses
contain no `|`, whose addresses do not begin with the reserved markers
`CHECKLOCKTIMEVERIFY:` or `MULTISIG:`, and whose `time_lock` is not the
falsy value `some 0` (which `to_string` silently drops). -/
theorem C8_roundtrip_exact (s : TimeLockScript)
    (hreq : 1 ≤ s.required_sig_num)
    (htype : '|' ∉ s.script_type.data)
    (haddr : ∀ a ∈ s.addresses, '|' ∉ a.data
      ∧ strStartsWith a "CHECKLOCKTIMEVERIFY:" = false
      ∧ strStartsWith a "MULTISIG:" = false)
    (htl : s.time_lock ≠ some 0) :
    TimeLockScript.fromScriptString (TimeLockScript.toScriptString s)
      = some s := by
  obtain ⟨st, addrs, req, tl⟩ := s
  have haddr2 : ∀ a ∈ addrs, '|' ∉ a.data := fun a ha => (haddr a ha).1
  have haddr3 : ∀ a ∈ addrs,
      strStartsWith a "CHECKLOCKTIMEVERIFY:" = false
      ∧ strStartsWith a "MULTISIG:" = false := fun a ha =>
    ⟨(haddr a ha).2.1, (haddr a ha).2.2⟩
  rcases tl with _ | t
  · -- no time lock
    have htlparts : (if optIntTruthy (none : Option Int)
        then ["CHECKLOCKTIMEVERIFY:" ++ intStr ((none : Option Int).getD 0)]
        else []) = ([] : List String) := by decide
    by_cases hms : req > 1
    · -- with a MULTISIG part
      have hparts : TimeLockScript.toScriptString ⟨st, addrs, req, none⟩
          = joinSep '|' (st ::
            ("MULTISIG:" ++ intStr req ++ ":" ++ intStr (addrs.length : Int))
              :: addrs) := by
        unfold TimeLockScript.toScriptString
        rw [htlparts, if_pos hms]
        simp
      rw [hparts]
      have hsplit := splitSep_joinSep '|'
        (st :: ("MULTISIG:" ++ intStr req ++ ":" ++ intStr (addrs.length : Int))
          :: addrs) (by simp)
        (by
          intro x hx
          rcases List.mem_cons.mp hx with rfl | hx
          · exact htype
          · rcases List.mem_cons.mp hx with rfl | hx
            · exact msPart_no_pipe req (addrs.length : Int)
            · exact haddr2 x hx)
      rw [fromScriptString_cons _ st _ hsplit, List.foldlM_cons,
        fromStringStep_multisig ((none : Option Int), (1 : Int), ([] : List String))
          req (addrs.length : Int)]
      rw [show ((some ((none : Option Int), req, ([] : List String))
          >>= fun b => addrs.foldlM fromStringStep b)
          = addrs.foldlM fromStringStep ((none : Option Int), req, ([] : List String)))
          from rfl]
      rw [foldlM_fromStringStep_plain addrs haddr3
        ((none : Option Int), req, ([] : List String))]
      simp
    · -- required_sig_num = 1, no MULTISIG part
      have hreq1 : req = 1 := le_antisymm (not_lt.mp hms) hreq
      have hparts : TimeLockScript.toScriptString ⟨st, addrs, req, none⟩
          = joinSep '|' (st :: addrs) := by
        unfold TimeLockScript.toScriptString
        rw [htlparts, if_neg hms]
        simp
      rw [hparts]
      have hsplit := splitSep_joinSep '|' (st :: addrs) (by simp)
        (by
          intro x hx
          rcases List.mem_cons.mp hx with rfl | hx
          · exact htype
          · exact haddr2 x hx)
      rw [fromScriptString_cons _ st _ hsplit,
        foldlM_fromStringStep_plain addrs haddr3
          ((none : Option Int), (1 : Int), ([] : List String))]
      simp [hreq1]
  · -- a (truthy) time lock
    have ht : t ≠ 0 := fun h => htl (by rw [h])
    have htruthy : optIntTruthy (some t) = true := by simp [optIntTruthy, ht]
    have htlparts : (if optIntTruthy (some t)
        then ["CHECKLOCKTIMEVERIFY:" ++ intStr ((some t).getD 0)]
        else []) = ["CHECKLOCKTIMEVERIFY:" ++ intStr t] := by
      rw [if_pos (by simp [htruthy])]
      rfl
    by_cases hms : req > 1
    · have hparts : TimeLockScript.toScriptString ⟨st, addrs, req, some t⟩
          = joinSep '|' (st :: ("CHECKLOCKTIMEVERIFY:" ++ intStr t)
            :: ("MULTISIG:" ++ intStr req ++ ":" ++ intStr (addrs.length : Int))
              :: addrs) := by
        unfold TimeLockScript.toScriptString
        rw [htlparts, if_pos hms]
        simp
      rw [hparts]
      have hsplit := splitSep_joinSep '|'
        (st :: ("CHECKLOCKTIMEVERIFY:" ++ intStr t)
          :: ("MULTISIG:" ++ intStr req ++ ":" ++ intStr (addrs.length : Int))
            :: addrs) (by simp)
        (by
          intro x hx
          rcases List.mem_cons.mp hx with rfl | hx
          · exact htype
          · rcases List.mem_cons.mp hx with rfl | hx
            · exact cltvPart_no_pipe t
            · rcases List.mem_cons.mp hx with rfl | hx
              · exact msPart_no_pipe req (addrs.length : Int)
              · exact haddr2 x hx)
      rw [fromScriptString_cons _ st _ hsplit, List.foldlM_cons,
        fromStringStep_cltv ((none : Option Int), (1 : Int), ([] : List String)) t]
      rw [show ((some ((some t : Option Int), (1 : Int), ([] : List String))
          >>= fun b => (("MULTISIG:" ++ intStr req ++ ":"
              ++ intStr (addrs.length : Int)) :: addrs).foldlM fromStringStep b)
          = (("MULTISIG:" ++ intStr req ++ ":" ++ intStr (addrs.length : Int))
              :: addrs).foldlM fromStringStep
            ((some t : Option Int), (1 : Int), ([] : List String))) from rfl]
      rw [List.foldlM_cons,
        fromStringStep_multisig ((some t : Option Int), (1 : Int), ([] : List String))
          req (addrs.length : Int)]
      rw [show ((some ((some t : Option Int), req, ([] : List String))
          >>= fun b => addrs.foldlM fromStringStep b)
          = addrs.foldlM fromStringStep
            ((some t : Option Int), req, ([] : List String))) from rfl]
      rw [foldlM_fromStringStep_plain addrs haddr3
        ((some t : Option Int), req, ([] : List String))]
      simp
    · have hreq1 : req = 1 := le_antisymm (not_lt.mp hms) hreq
      have hparts : TimeLockScript.toScriptString ⟨st, addrs, req, some t⟩
          = joinSep '|' (st :: ("CHECKLOCKTIMEVERIFY:" ++ intStr t) :: addrs) := by
        unfold TimeLockScript.toScriptString
        rw [htlparts, if_neg hms]
        simp
      rw [hparts]
      have hsplit := splitSep_joinSep '|'
        (st :: ("CHECKLOCKTIMEVERIFY:" ++ intStr t) :: addrs) (by simp)
        (by
          intro x hx
          rcases List.mem_cons.mp hx with rfl | hx
          · exact htype
          · rcases List.mem_cons.mp hx with rfl | hx
            · exact cltvPart_no_pipe t
            · exact haddr2 x hx)
      rw [fromScriptString_cons _ st _ hsplit, List.foldlM_cons,
        fromStringStep_cltv ((none : Option Int), (1 : Int), ([] : List String)) t]
      rw [show ((some ((some t : Option Int), (1 : Int), ([] : List String))
          >>= fun b => addrs.foldlM fromStringStep b)
          = addrs.foldlM fromStringStep
            ((some t : Option Int), (1 : Int), ([] : List String))) from rfl]
      rw [foldlM_fromStringStep_plain addrs haddr3
        ((some t : Option Int), (1 : Int), ([] : List String))]
      simp [hreq1]

/-- C8 (witness): the round-trip evaluated on a 2-of-2 multisig script
with a time lock. -/
theorem C8_roundtrip_exact_witness :
    (1 ≤ scriptC8w.required_sig_num
      ∧ '|' ∉ scriptC8w.script_type.data
      ∧ (∀ a ∈ scriptC8w.addresses, '|' ∉ a.data
        ∧ strStartsWith a "CHECKLOCKTIMEVERIFY:" = false
        ∧ strStartsWith a "MULTISIG:" = false)
      ∧ scriptC8w.time_lock ≠ some 0)
    ∧ TimeLockScript.fromScriptString (TimeLockScript.toScriptString scriptC8w)
        = some scriptC8w :=
  ⟨⟨by decide, by decide, by decide, by decide⟩,
    C8_roundtrip_exact scriptC8w (by decide) (by decide) (by decide) (by decide)⟩

end CPC
